import Mathlib

/-!
Verification development for the Bitcoin dashboard analytics engine
(`src/BitcoinForecastingDashboard.js` and the unnamed dashboard source file).

The quantitative core is embedded shallowly:

* the **IndicatorEngine** (`calculateEMA`, the enhanced-data fields, `macdData`,
  `technicalData`) is embedded over `ℚ` — this part of the source uses only
  field arithmetic, `abs`, `min`/`max` and comparisons, so a computable
  rational embedding is exact and lets concrete scenarios be settled by
  `decide`;
* the **RiskEngine** (`portfolioAnalytics`) is embedded over `Option ℝ`,
  where `none` models a JavaScript `NaN` (the computation divides by zero on
  degenerate inputs, and the resulting NaN propagation is load-bearing for
  the error-handling claims); `±Infinity` never arises in the reached paths
  (no non-zero quantity is divided by zero), so a single non-finite marker is
  adequate;
* the **ForecastEngine** (the seven `generate*` model functions) is embedded
  over `ℝ`, with every call of `Math.random()` replaced by an explicit stream
  of reals supplied as a parameter (each call site gets its own stream,
  indexed by loop counters; any interleaving of the single JS generator is a
  choice of such streams).

JavaScript `map((item, index) => ...)` loops are rendered as maps over
`List.range`, and `Array.prototype.slice(a, b)` as `jsSlice` below.  Dates
(`Date.now() + (i+1) days`) and purely presentational fields are not part of
the embedding; every field a claim mentions is carried.
-/

namespace Btc

/-- JS `arr.slice(a, b)` for `0 ≤ a ≤ b`: the elements with indices in
`[a, b)`.  The source always clamps the lower end with `Math.max(0, ·)`,
which truncated `ℕ` subtraction reproduces. -/
def jsSlice (l : List α) (a b : ℕ) : List α :=
  (l.take b).drop a

/-- JS `o || d` on an optional number: `undefined`, `NaN` and `0` all fall
back to `d` (here the optional is either a rational or absent, so only the
`0` and absent cases arise). -/
def jsOr (o : Option ℚ) (d : ℚ) : ℚ :=
  match o with
  | some x => if x = 0 then d else x
  | none => d

/-- JS truthiness test of an optional numeric field (`null` and `0` are
falsy). -/
def truthy (o : Option ℚ) : Bool :=
  match o with
  | some x => x != 0
  | none => false

/-- One input point of the price series: the close price plus the optional
`high`/`low` fields (the dashboard synthesizes them from the price when
absent; the indicator code reads them through the `p.high || p.price`
fallback, so an `Option` is the faithful carrier). -/
structure Item where
  price : ℚ
  high : Option ℚ := none
  low : Option ℚ := none
deriving DecidableEq

/-- The resolved high of an item: JS `item.high || item.price`. -/
def Item.hi (it : Item) : ℚ := jsOr it.high it.price

/-- The resolved low of an item: JS `item.low || item.price`. -/
def Item.lo (it : Item) : ℚ := jsOr it.low it.price

/-- The loop body of `calculateEMA`: `ema[i] = price[i]*m + ema[i-1]*(1-m)`. -/
def emaGo (m : ℚ) (prev : ℚ) : List ℚ → List ℚ
  | [] => []
  | x :: xs =>
    let e := x * m + prev * (1 - m)
    e :: emaGo m e xs

/-- `calculateEMA(prices, period)` from the source: multiplier `2/(period+1)`,
seeded with the first price.  The source would return `[undefined]` on an
empty input; it is only ever called on non-empty lists, and the embedding
returns `[]` there. -/
def calculateEMA (prices : List ℚ) (period : ℕ) : List ℚ :=
  match prices with
  | [] => []
  | p :: rest => p :: emaGo (2 / ((period : ℚ) + 1)) p rest

/-- The `sma_20` field attached in `fetchHistoricalData`:
`index >= 19 ? mean of the last 20 closes : null`. -/
def sma20At (prices : List ℚ) (i : ℕ) : Option ℚ :=
  if 19 ≤ i then some ((jsSlice prices (i - 19) (i + 1)).foldl (· + ·) 0 / 20)
  else none

/-- The `ema_12` field attached in `fetchHistoricalData`:
`index >= 11 ? calculateEMA(prices.slice(0, index+1), 12)[index] : null`. -/
def ema12At (prices : List ℚ) (i : ℕ) : Option ℚ :=
  if 11 ≤ i then (calculateEMA (jsSlice prices 0 (i + 1)) 12).get? i
  else none

/-- The `ema_26` field attached in `fetchHistoricalData`:
`index >= 25 ? calculateEMA(prices.slice(0, index+1), 26)[index] : null`. -/
def ema26At (prices : List ℚ) (i : ℕ) : Option ℚ :=
  if 25 ≤ i then (calculateEMA (jsSlice prices 0 (i + 1)) 26).get? i
  else none

/-- One record of the enhanced historical data: the raw point plus the
`sma_20`/`ema_12`/`ema_26` fields attached in `fetchHistoricalData`. -/
structure Enh where
  price : ℚ
  high : Option ℚ
  low : Option ℚ
  sma20 : Option ℚ
  ema12 : Option ℚ
  ema26 : Option ℚ
deriving DecidableEq

/-- The enhanced record at one index (body of the `fetchHistoricalData`
mapping; the synthesized OHLC jitter and volume are presentational and the
jittered `high`/`low` are abstracted as the supplied optional fields). -/
def enhAt (items : List Item) (i : ℕ) : Enh :=
  let it := items.getD i ⟨0, none, none⟩
  let ps := items.map Item.price
  ⟨it.price, it.high, it.low, sma20At ps i, ema12At ps i, ema26At ps i⟩

/-- The enhanced historical data list. -/
def enhance (items : List Item) : List Enh :=
  (List.range items.length).map (enhAt items)

/-- The mapped MACD value of one enhanced record, before filtering:
`d.ema_12 && d.ema_26 ? d.ema_12 - d.ema_26 : 0`. -/
def macdVal (d : Enh) : ℚ :=
  if truthy d.ema12 && truthy d.ema26 then d.ema12.getD 0 - d.ema26.getD 0 else 0

/-- One output record of `macdData`. -/
structure MacdRec where
  macd : Option ℚ
  signal : Option ℚ
  histogram : Option ℚ
deriving DecidableEq

/-- The `macdData` record at one index, translated line by line from the
source: the signal window is `slice(max(0, i-8), i+1)` mapped through
`macdVal` with the exact zeroes filtered out, and the 9-period EMA is only
taken when 9 values survive. -/
def macdRecAt (data : List Enh) (i : ℕ) : MacdRec :=
  let item := data.getD i ⟨0, none, none, none, none, none⟩
  if truthy item.ema12 && truthy item.ema26 then
    let macdLine := item.ema12.getD 0 - item.ema26.getD 0
    let macdValues := ((jsSlice data (i - 8) (i + 1)).map macdVal).filter (· != 0)
    let signal :=
      if 9 ≤ macdValues.length then (calculateEMA macdValues 9).getD (macdValues.length - 1) 0
      else macdLine
    ⟨some macdLine, some signal, some (macdLine - signal)⟩
  else ⟨none, none, none⟩

/-- `macdData` over the enhanced list. -/
def macdData (data : List Enh) : List MacdRec :=
  (List.range data.length).map (macdRecAt data)

/-- The RSI window length at index `i`: `min(14, index + 1)`. -/
def rsiPeriod (i : ℕ) : ℕ := min 14 (i + 1)

/-- The trailing window of raw points feeding the oscillators at index `i`:
`slice(max(0, i - period + 1), i + 1)`. -/
def techWindow (items : List Item) (i : ℕ) : List Item :=
  jsSlice items (i + 1 - rsiPeriod i) (i + 1)

/-- The gain/loss split of the day-over-day changes of a window: a positive
change is pushed to the gains, any other change's absolute value to the
losses (so a zero change contributes a zero loss, exactly as in the source).
-/
def gainsLosses : List Item → List ℚ × List ℚ
  | [] => ([], [])
  | [_] => ([], [])
  | a :: b :: rest =>
    let gl := gainsLosses (b :: rest)
    let change := b.price - a.price
    if 0 < change then (change :: gl.1, gl.2) else (gl.1, |change| :: gl.2)

/-- JS `Math.max(...)` over a window (windows are never empty in the source;
the `[]` case is junk). -/
def jsMax (l : List ℚ) : ℚ :=
  match l with
  | [] => 0
  | x :: xs => xs.foldl max x

/-- JS `Math.min(...)` over a window. -/
def jsMin (l : List ℚ) : ℚ :=
  match l with
  | [] => 0
  | x :: xs => xs.foldl min x

/-- `avgGain`: arithmetic mean of the pushed gains, `0` when there are none
(JS `gains.length ? sum/len : 0`). -/
def avgGain (w : List Item) : ℚ :=
  let g := (gainsLosses w).1
  if g.length = 0 then 0 else g.foldl (· + ·) 0 / (g.length : ℚ)

/-- `avgLoss`: arithmetic mean of the pushed losses, `0` when there are none. -/
def avgLoss (w : List Item) : ℚ :=
  let l := (gainsLosses w).2
  if l.length = 0 then 0 else l.foldl (· + ·) 0 / (l.length : ℚ)

/-- `rs = avgLoss === 0 ? 100 : avgGain / avgLoss`. -/
def rsOf (w : List Item) : ℚ :=
  if avgLoss w = 0 then 100 else avgGain w / avgLoss w

/-- `enhancedRSI = 100 - 100/(1 + rs)` over the trailing window. -/
def rsiAt (items : List Item) (i : ℕ) : ℚ :=
  100 - 100 / (1 + rsOf (techWindow items i))

/-- `high14`: max of the window's resolved highs. -/
def high14At (items : List Item) (i : ℕ) : ℚ :=
  jsMax ((techWindow items i).map Item.hi)

/-- `low14`: min of the window's resolved lows. -/
def low14At (items : List Item) (i : ℕ) : ℚ :=
  jsMin ((techWindow items i).map Item.lo)

/-- Stochastic `%K`: `low14 === high14 ? 50 : (price - low14)/(high14 - low14) * 100`. -/
def stochKAt (items : List Item) (i : ℕ) : ℚ :=
  let p := (items.getD i ⟨0, none, none⟩).price
  let h := high14At items i
  let l := low14At items i
  if l = h then 50 else (p - l) / (h - l) * 100

/-- Stochastic `%D`: for `index >= 3`, the mean of the `%K` values of indices
`i-2 .. i`, each recomputed in full from its own trailing window (the inner
`reduce` block of the source duplicates the `%K` computation verbatim, so it
is shared here as `stochKAt`); below index 3 it falls back to the point's own
`%K`. -/
def stochDAt (items : List Item) (i : ℕ) : ℚ :=
  if 3 ≤ i then
    ((List.range (jsSlice items (i - 2) (i + 1)).length).map
      (fun i2 => stochKAt items (i - 2 + i2))).foldl (· + ·) 0 / 3
  else stochKAt items i

/-- Williams `%R`: `low14 === high14 ? -50 : (high14 - price)/(high14 - low14) * -100`. -/
def williamsRAt (items : List Item) (i : ℕ) : ℚ :=
  let p := (items.getD i ⟨0, none, none⟩).price
  let h := high14At items i
  let l := low14At items i
  if l = h then -50 else (h - p) / (h - l) * (-100)

/-- CCI over the trailing window: typical price against the window mean and
mean absolute deviation, `0` when the deviation vanishes. -/
def cciAt (items : List Item) (i : ℕ) : ℚ :=
  let it := items.getD i ⟨0, none, none⟩
  let w := techWindow items i
  let typicalPrice := (it.price + it.hi + it.lo) / 3
  let sma := (w.map Item.price).foldl (· + ·) 0 / (w.length : ℚ)
  let meanDeviation := (w.map (fun p => |p.price - sma|)).foldl (· + ·) 0 / (w.length : ℚ)
  if meanDeviation = 0 then 0 else (typicalPrice - sma) / (0.015 * meanDeviation)

/-- `momentum`: 10-day percent change, `0` during warm-up. -/
def momentumAt (items : List Item) (i : ℕ) : ℚ :=
  if 10 ≤ i then
    let p := (items.getD i ⟨0, none, none⟩).price
    let q := (items.getD (i - 10) ⟨0, none, none⟩).price
    (p - q) / q * 100
  else 0

/-- One output record of `technicalData` (the fields the specification's
claims mention). -/
structure TechRec where
  enhancedRSI : ℚ
  stochK : ℚ
  stochD : ℚ
  williamsR : ℚ
  cci : ℚ
  momentum : ℚ
deriving DecidableEq

/-- The `technicalData` record at one index. -/
def techRecAt (items : List Item) (i : ℕ) : TechRec :=
  ⟨rsiAt items i, stochKAt items i, stochDAt items i, williamsRAt items i,
    cciAt items i, momentumAt items i⟩

/-- `technicalData` over the raw series. -/
def technicalData (items : List Item) : List TechRec :=
  (List.range items.length).map (techRecAt items)

/-- The MACD signal line as the specification's sentence reads: the 9-period
EMA of **all** the non-null MACD values available up to and including index
`i`, falling back to the point's own MACD value when fewer than 9 exist.
This is the claim-side reference definition for the signal-line claim, to be
compared with `macdRecAt`. -/
def signalClaim (data : List Enh) (i : ℕ) : ℚ :=
  let avail := ((jsSlice data 0 (i + 1)).filter
      (fun d => truthy d.ema12 && truthy d.ema26)).map
    (fun d => d.ema12.getD 0 - d.ema26.getD 0)
  if 9 ≤ avail.length then (calculateEMA avail 9).getD (avail.length - 1) 0
  else macdVal (data.getD i ⟨0, none, none, none, none, none⟩)

/-- The amended signal line, written independently of `macdRecAt`: the
nonzero MACD values among indices `max(0, i-8) .. i` (an entry is dropped
when either EMA is null/zero-valued or when its MACD value is exactly zero),
fed to the 9-period EMA only when 9 of them survive. -/
def signalAmended (data : List Enh) (i : ℕ) : ℚ :=
  let w := ((List.range (i + 1)).filter (fun j => i ≤ j + 8)).filterMap
    (fun j => do
      let d ← data.get? j
      let e12 ← d.ema12
      let e26 ← d.ema26
      if e12 = 0 ∨ e26 = 0 ∨ e12 - e26 = 0 then none else some (e12 - e26))
  if 9 ≤ w.length then (calculateEMA w 9).getD (w.length - 1) 0
  else macdVal (data.getD i ⟨0, none, none, none, none, none⟩)

/-! ### RiskEngine (`portfolioAnalytics`)

Embedded over `Option ℝ`: `none` models a JavaScript `NaN`.  The risk
computation genuinely divides `0/0` on degenerate inputs (e.g. the mean of an
empty returns array), and JS comparisons involving `NaN` are `false`; both
behaviours are modelled exactly.  No non-zero quantity is ever divided by
zero in the reached paths, so `±Infinity` needs no separate marker.  The
source reads `technicalData[i].price`; only the prices enter the
computation, so the embedding takes the price list directly. -/

/-- A JS number in the risk computation: `some x` a finite value, `none` NaN. -/
abbrev JNum := Option ℝ

/-- NaN-propagating addition. -/
noncomputable def jadd (a b : JNum) : JNum := a.bind fun x => b.map fun y => x + y

/-- NaN-propagating subtraction. -/
noncomputable def jsub (a b : JNum) : JNum := a.bind fun x => b.map fun y => x - y

/-- NaN-propagating multiplication. -/
noncomputable def jmul (a b : JNum) : JNum := a.bind fun x => b.map fun y => x * y

/-- JS division: NaN propagates, and a zero denominator yields a non-finite
result (`0/0` is NaN; a non-zero numerator over zero never occurs in the
reached paths). -/
noncomputable def jdiv (a b : JNum) : JNum :=
  a.bind fun x => b.bind fun y => if y = 0 then none else some (x / y)

/-- JS `Math.sqrt`: NaN on a negative argument, NaN propagates. -/
noncomputable def jsqrt (a : JNum) : JNum :=
  a.bind fun x => if x < 0 then none else some (Real.sqrt x)

/-- JS `<` as a boolean: any comparison with NaN is `false`. -/
noncomputable def jltB (a b : JNum) : Bool :=
  match a, b with
  | some x, some y => decide (x < y)
  | _, _ => false

/-- Sum of a JS number list (`reduce((sum, r) => sum + r, 0)`). -/
noncomputable def jsum (l : List JNum) : JNum := l.foldl jadd (some 0)

/-- The daily simple returns `r_i = (p_i - p_{i-1})/p_{i-1}`. -/
noncomputable def riskReturns (prices : List ℝ) : List JNum :=
  (List.range (prices.length - 1)).map fun j =>
    jdiv (some (prices.getD (j + 1) 0 - prices.getD j 0)) (some (prices.getD j 0))

/-- `mean = returns.reduce(+)/returns.length` (NaN for an empty list: `0/0`). -/
noncomputable def meanOf (prices : List ℝ) : JNum :=
  jdiv (jsum (riskReturns prices)) (some (riskReturns prices).length)

/-- Population variance of the returns about `mean`. -/
noncomputable def varianceOf (prices : List ℝ) : JNum :=
  jdiv (jsum ((riskReturns prices).map fun r =>
    jmul (jsub r (meanOf prices)) (jsub r (meanOf prices))))
    (some (riskReturns prices).length)

/-- `volatility = sqrt(variance) * sqrt(252)` (as a fraction, not ×100). -/
noncomputable def volatilityOf (prices : List ℝ) : JNum :=
  jmul (jsqrt (varianceOf prices)) (some (Real.sqrt 252))

/-- `[...returns].sort((a, b) => a - b)`: ascending sort (the comparator's
behaviour on NaN is unspecified in JS; the claims only reach all-finite
lists, where the model is exact). -/
noncomputable def sortedReturns (prices : List ℝ) : List JNum :=
  (riskReturns prices).mergeSort fun a b =>
    match a, b with
    | some x, some y => decide (x ≤ y)
    | _, _ => true

/-- JS `sorted[i] || 0`: an out-of-range access (`undefined`), a NaN and a
stored `0` all give `0`; any other stored value passes through. -/
noncomputable def jIndexOrZero (l : List JNum) (i : ℕ) : ℝ :=
  match l.get? i with
  | some (some x) => x
  | _ => 0

/-- `VaR_p = sorted[floor(N*p)] || 0`; the index `floor(N*p)` is written with
exact rational `p` (`N*1/100`, `N*5/100`, `N*10/100`), which agrees with the
float computation at every reachable length. -/
noncomputable def varAt (prices : List ℝ) (num den : ℕ) : ℝ :=
  jIndexOrZero (sortedReturns prices) ((riskReturns prices).length * num / den)

/-- `CVaR_5`: mean of the sorted returns below the 5% index, `0` when the
index is `0`. -/
noncomputable def cvar5Of (prices : List ℝ) : JNum :=
  let idx := (riskReturns prices).length * 5 / 100
  if 0 < idx then jdiv (jsum ((sortedReturns prices).take idx)) (some idx)
  else some 0

/-- Maximum drawdown: running peak over the series, maximal
`(peak - price)/peak`; a NaN drawdown never overwrites the accumulator
because the JS `>` comparison is false. -/
noncomputable def maxDrawdownOf (prices : List ℝ) : JNum :=
  (prices.foldl
    (fun (st : ℝ × JNum) p =>
      let peak := if st.1 < p then p else st.1
      let dd := jdiv (some (peak - p)) (some peak)
      (peak, if jltB st.2 dd then dd else st.2))
    (prices.getD 0 0, some 0)).2

/-- `excessReturn = mean*252 - 0.02`. -/
noncomputable def excessReturnOf (prices : List ℝ) : JNum :=
  jsub (jmul (meanOf prices) (some 252)) (some 0.02)

/-- `sharpe = volatility === 0 ? 0 : excess/volatility`. -/
noncomputable def sharpeOf (prices : List ℝ) : JNum :=
  if volatilityOf prices = some 0 then some 0
  else jdiv (excessReturnOf prices) (volatilityOf prices)

/-- The downside returns: strictly below the mean (a NaN mean filters
everything out, as in JS). -/
noncomputable def downsideOf (prices : List ℝ) : List JNum :=
  (riskReturns prices).filter fun r => jltB r (meanOf prices)

/-- `downsideDeviation`: `0` when the downside set is empty. -/
noncomputable def downsideDeviationOf (prices : List ℝ) : JNum :=
  let d := downsideOf prices
  if d.length = 0 then some 0
  else jmul (jsqrt (jdiv (jsum (d.map fun r =>
    jmul (jsub r (meanOf prices)) (jsub r (meanOf prices)))) (some d.length)))
    (some (Real.sqrt 252))

/-- `sortino = downsideDeviation === 0 ? 0 : excess/downsideDeviation`. -/
noncomputable def sortinoOf (prices : List ℝ) : JNum :=
  if downsideDeviationOf prices = some 0 then some 0
  else jdiv (excessReturnOf prices) (downsideDeviationOf prices)

/-- `calmar = maxDrawdown === 0 ? 0 : (mean*252*100)/(maxDrawdown*100)`. -/
noncomputable def calmarOf (prices : List ℝ) : JNum :=
  if maxDrawdownOf prices = some 0 then some 0
  else jdiv (jmul (jmul (meanOf prices) (some 252)) (some 100))
    (jmul (maxDrawdownOf prices) (some 100))

/-- The `portfolioAnalytics` result object (every reported field; the VaR
family is reported ×100). -/
structure RiskMetrics where
  volatility : JNum
  var1 : JNum
  var5 : JNum
  var10 : JNum
  cvar5 : JNum
  maxDrawdown : JNum
  sharpeRatio : JNum
  sortinoRatio : JNum
  calmarRatio : JNum

/-- `portfolioAnalytics`: `{}` (all fields undefined) on an empty series,
modelled as `none`; otherwise the metrics record. -/
noncomputable def portfolioAnalytics (prices : List ℝ) : Option RiskMetrics :=
  if prices.length = 0 then none
  else some
    { volatility := jmul (volatilityOf prices) (some 100)
      var1 := some (varAt prices 1 100 * 100)
      var5 := some (varAt prices 5 100 * 100)
      var10 := some (varAt prices 10 100 * 100)
      cvar5 := jmul (cvar5Of prices) (some 100)
      maxDrawdown := jmul (maxDrawdownOf prices) (some 100)
      sharpeRatio := sharpeOf prices
      sortinoRatio := sortinoOf prices
      calmarRatio := calmarOf prices }

/-! ### ForecastEngine (the seven `generate*` model functions)

Embedded over `ℝ`.  Every `Math.random()` call site receives its own stream
of reals (indexed by the loop counters); a stream hypothesis
`∀ n, 0 ≤ rnd n ∧ rnd n < 1` recovers the JS range where a claim needs it.
The forecast arrays are built by structural recursion on the remaining
horizon, threading the previous price exactly as the source's
`i === 0 ? currentPrice * ... : forecast[i-1].price * ...` does.  The `date`
fields (`Date.now() + (i+1) days`) and the per-model `metrics` objects are
presentational and are not part of the embedding; every numeric field a
claim mentions is carried.  Real division by zero is Lean's junk `0` here
(never reached under the valid-series hypotheses carried by the theorems). -/

/-- One forecast point: projected price, confidence bounds, confidence. -/
structure FPoint where
  price : ℝ
  upperBound : ℝ
  lowerBound : ℝ
  confidence : ℝ

/-- Daily simple returns of the price list (shared by the models that
estimate drift/volatility from history). -/
noncomputable def fReturns (prices : List ℝ) : List ℝ :=
  (List.range (prices.length - 1)).map fun j =>
    (prices.getD (j + 1) 0 - prices.getD j 0) / prices.getD j 0

/-- `mean = returns.reduce(+)/returns.length`. -/
noncomputable def fMean (rs : List ℝ) : ℝ := rs.foldl (· + ·) 0 / rs.length

/-- Population variance about the mean. -/
noncomputable def fVariance (rs : List ℝ) : ℝ :=
  (rs.map fun r => (r - fMean rs) ^ 2).foldl (· + ·) 0 / rs.length

/-- The ARIMA-GARCH forecast loop: uniform shock `(rnd-0.5)*2*vol`,
compounded price, GARCH-style band `±1.96 * vol*(1+0.1|shock|)`, confidence
decaying from 0.95. -/
noncomputable def arimaGo (mean vol : ℝ) (horizon : ℕ) (rnd : ℕ → ℝ) :
    ℕ → ℕ → ℝ → List FPoint
  | 0, _, _ => []
  | fuel + 1, i, prev =>
    let shock := (rnd i - 0.5) * 2 * vol
    let change := mean + shock
    let newPrice := prev * (1 + change)
    let garchVol := vol * (1 + 0.1 * |shock|)
    ⟨newPrice, newPrice * (1 + 1.96 * garchVol), newPrice * (1 - 1.96 * garchVol),
        0.95 - ((i : ℝ) / (horizon : ℝ)) * 0.2⟩ ::
      arimaGo mean vol horizon rnd fuel (i + 1) newPrice

/-- `generateARIMAGARCH` (forecast array; the `metrics` object only feeds the
display and the model parameters only enter the metrics). -/
noncomputable def generateARIMAGARCH (prices : List ℝ) (horizon : ℕ)
    (rnd : ℕ → ℝ) : List FPoint :=
  let returns := fReturns prices
  let mean := fMean returns
  let vol := Real.sqrt (fVariance returns)
  arimaGo mean vol horizon rnd horizon 0 (prices.getLastD 0)

/-- The pattern-matching similarity weight: inverse of one plus the
normalized absolute distance between a historical window and the recent
window. -/
noncomputable def lstmSimilarity (recent pattern : List ℝ) (lookback : ℕ) : ℝ :=
  1 / (1 + ((List.range lookback).map fun k =>
    |pattern.getD k 0 - recent.getD k 0| / recent.getD k 0).foldl (· + ·) 0)

/-- One pattern-matching prediction: similarity-weighted average of the
values following each historical `lookback`-window, over
`j = lookback .. bound-1`; the last available price when no weights accrue. -/
noncomputable def lstmPredict (prices recent : List ℝ) (lookback bound : ℕ)
    (c : ℝ) : ℝ :=
  let idxs := List.range' lookback (bound - lookback)
  let prediction := (idxs.map fun j =>
    prices.getD j 0 * lstmSimilarity recent (jsSlice prices (j - lookback) j) lookback).foldl (· + ·) 0
  let weightSum := (idxs.map fun j =>
    lstmSimilarity recent (jsSlice prices (j - lookback) j) lookback).foldl (· + ·) 0
  if 0 < weightSum then prediction / weightSum else c

/-- The LSTM-style forecast loop: autoregressive recent-price buffer
(push the prediction, shift the head), band `±sqrt(step)*current*0.02`,
confidence `max(0.5, 0.9 - (i/horizon)*0.4)`. -/
noncomputable def lstmGo (prices : List ℝ) (lookback horizon : ℕ) (c : ℝ) :
    ℕ → ℕ → List ℝ → List FPoint
  | 0, _, _ => []
  | fuel + 1, i, recent =>
    let predicted := lstmPredict prices recent lookback (prices.length + i - horizon) c
    let uncertainty := Real.sqrt ((i : ℝ) + 1) * c * 0.02
    ⟨predicted, predicted + uncertainty, predicted - uncertainty,
        max 0.5 (0.9 - ((i : ℝ) / (horizon : ℝ)) * 0.4)⟩ ::
      lstmGo prices lookback horizon c fuel (i + 1) ((recent ++ [predicted]).drop 1)

/-- `generateLSTM` (the unused `normalized` array and the simulated metrics
are dropped; `epochs` never alters the computation). -/
noncomputable def generateLSTM (prices : List ℝ) (horizon lookbackParam : ℕ) :
    List FPoint :=
  let lookback := min lookbackParam prices.length
  let recent := prices.drop (prices.length - lookback)
  lstmGo prices lookback horizon (prices.getLastD 0) horizon 0 recent

/-- One simulated price path value after `days` daily steps, returns drawn
as `mean + vol*(rnd-0.5)*2*sqrt(3)`. -/
noncomputable def mcDayPrice (c mean vol : ℝ) (rnd : ℕ → ℝ) (days : ℕ) : ℝ :=
  (List.range days).foldl
    (fun p day => p * (1 + (mean + vol * (rnd day - 0.5) * 2 * Real.sqrt 3))) c

/-- `generateMonteCarlo` forecast points: per horizon step `i`, re-simulate
`min(100, simulations)` paths of `i+1` steps and report the empirical
median/95th/5th percentiles of the day prices (ascending sort, floor
indices).  The separate terminal-distribution simulation only feeds the
metrics/paths display and is not part of the points. -/
noncomputable def generateMonteCarlo (prices : List ℝ) (horizon sims : ℕ)
    (vol : ℝ) (rnd : ℕ → ℕ → ℕ → ℝ) : List FPoint :=
  let mean := fMean (fReturns prices)
  let c := prices.getLastD 0
  (List.range horizon).map fun i =>
    let dayPrices := (List.range (min 100 sims)).map fun s =>
      mcDayPrice c mean vol (rnd i s) (i + 1)
    let sorted := dayPrices.mergeSort fun a b => decide (a ≤ b)
    let n := dayPrices.length
    ⟨sorted.getD (n * 50 / 100) 0, sorted.getD (n * 95 / 100) 0,
      sorted.getD (n * 5 / 100) 0, 0.9⟩

/-- The source's closed-form normal-CDF helper:
`N(x) = 0.5*(1 + sign(x)*sqrt(1 - exp(-2*|x|/π)))` — note the `Math.abs(x)`,
not `x²`, in the exponent. -/
noncomputable def bsN (x : ℝ) : ℝ :=
  0.5 * (1 + Real.sign x * Real.sqrt (1 - Real.exp (-2 * |x| / Real.pi)))

/-- The normal-CDF approximation as the specification's sentence writes it:
`N(x) = 0.5*(1 + sign(x)*sqrt(1 - exp(-2*x²/π)))` (the claim-side reference
definition, to be compared with `bsN`). -/
noncomputable def bsNClaim (x : ℝ) : ℝ :=
  0.5 * (1 + Real.sign x * Real.sqrt (1 - Real.exp (-2 * x ^ 2 / Real.pi)))

/-- A Black-Scholes forecast point: the projected price, its fixed ±20%
band, the fixed confidence, and the three European call values. -/
structure BSPoint where
  price : ℝ
  upperBound : ℝ
  lowerBound : ℝ
  confidence : ℝ
  callValues : List ℝ

/-- The European call value as the source's inline formula computes it:
spot `S`, strike `K`, rate `r`, volatility `vol`, maturity `t`, with the
helper `bsN`. -/
noncomputable def bsCall (r vol S K t : ℝ) : ℝ :=
  let d1 := (Real.log (S / K) + (r + 0.5 * vol ^ 2) * t) / (vol * Real.sqrt t)
  let d2 := d1 - vol * Real.sqrt t
  S * bsN d1 - K * Real.exp (-r * t) * bsN d2

/-- `generateBlackScholes`: GBM projection `c*exp(r*t + vol*sqrt(t)*shock)`
with uniform shock, call values at strikes `{0.9, 1.0, 1.1}×current`. -/
noncomputable def generateBlackScholes (prices : List ℝ) (horizon : ℕ)
    (r vol : ℝ) (rnd : ℕ → ℝ) : List BSPoint :=
  let c := prices.getLastD 0
  let strikes := [c * 0.9, c, c * 1.1]
  (List.range horizon).map fun (i : ℕ) =>
    let t := ((i : ℝ) + 1) / 365
    let drift := r * t
    let diffusion := vol * Real.sqrt t * (rnd i - 0.5) * 2
    let predictedPrice := c * Real.exp (drift + diffusion)
    ⟨predictedPrice, predictedPrice * 1.2, predictedPrice * 0.8, 0.8,
      strikes.map fun strike => bsCall r vol predictedPrice strike t⟩

/-- The jump-diffusion forecast loop: ARIMA-style diffusion plus a jump of
magnitude `(rnd-0.5)*jumpSize*2` fired when `rnd < jumpIntensity`, band
`±vol*sqrt(step)*(1+jumpIntensity)`. -/
noncomputable def jdGo (mean vol jumpIntensity jumpSize : ℝ)
    (rnd1 rnd2 rnd3 : ℕ → ℝ) : ℕ → ℕ → ℝ → List FPoint
  | 0, _, _ => []
  | fuel + 1, i, prev =>
    let diffusion := mean + vol * (rnd1 i - 0.5) * 2 * Real.sqrt 3
    let jump := if rnd2 i < jumpIntensity then (rnd3 i - 0.5) * jumpSize * 2 else 0
    let totalReturn := diffusion + jump
    let newPrice := prev * (1 + totalReturn)
    let uncertainty := vol * Real.sqrt ((i : ℝ) + 1) * (1 + jumpIntensity)
    ⟨newPrice, newPrice * (1 + uncertainty), newPrice * (1 - uncertainty), 0.85⟩ ::
      jdGo mean vol jumpIntensity jumpSize rnd1 rnd2 rnd3 fuel (i + 1) newPrice

/-- `generateJumpDiffusion` (forecast array; the constant `jumpProbability`
field and the metrics are presentational). -/
noncomputable def generateJumpDiffusion (prices : List ℝ) (horizon : ℕ)
    (jumpIntensity jumpSize : ℝ) (rnd1 rnd2 rnd3 : ℕ → ℝ) : List FPoint :=
  let returns := fReturns prices
  let mean := fMean returns
  let vol := Real.sqrt (fVariance returns)
  jdGo mean vol jumpIntensity jumpSize rnd1 rnd2 rnd3 horizon 0 (prices.getLastD 0)

/-- One of the three hardcoded regimes (mean, volatility, prior
probability). -/
structure Regime where
  mean : ℝ
  vol : ℝ
  probability : ℝ

/-- The `regimes` array: Bull at 0, Bear at 1, Sideways at 2.  The source
indexes a 3-element array; an index `≥ 3` would be a JS runtime error, and
the theorems keep the index below 3 via the dashboard's `regimes = 3`
parameter (the `_` catch-all is only a totalization). -/
noncomputable def regimeAt : ℕ → Regime
  | 0 => ⟨0.002, 0.02, 0.4⟩
  | 1 => ⟨-0.001, 0.04, 0.3⟩
  | _ => ⟨0.0005, 0.015, 0.3⟩

/-- The initial regime detection from the trailing 30 returns (`Bull = 0`
default; `Bear = 1` and `Sideways = 2` via the fixed thresholds). -/
noncomputable def markovInitRegime (prices : List ℝ) : ℕ :=
  let returns := fReturns prices
  let recent := returns.drop (returns.length - 30)
  let recentMean := fMean recent
  let recentVol := Real.sqrt (fVariance recent)
  if recentMean < -0.001 ∧ 0.03 < recentVol then 1
  else if |recentMean| < 0.001 ∧ recentVol < 0.02 then 2
  else 0

/-- The regime-switching forecast loop: with probability 0.05 the regime is
resampled uniformly over `regimesParam` regimes, the price compounds with
the active regime's mean/volatility, band `±2*regime.volatility`. -/
noncomputable def markovGo (regimesParam : ℕ) (horizon : ℕ)
    (rnd1 rnd2 rnd3 : ℕ → ℝ) : ℕ → ℕ → ℕ → ℝ → List FPoint
  | 0, _, _, _ => []
  | fuel + 1, i, regime, prev =>
    let regime' := if rnd1 i < 0.05 then ⌊rnd2 i * (regimesParam : ℝ)⌋₊ else regime
    let r := regimeAt regime'
    let randomReturn := r.mean + r.vol * (rnd3 i - 0.5) * 2 * Real.sqrt 3
    let newPrice := prev * (1 + randomReturn)
    ⟨newPrice, newPrice * (1 + r.vol * 2), newPrice * (1 - r.vol * 2), 0.75⟩ ::
      markovGo regimesParam horizon rnd1 rnd2 rnd3 fuel (i + 1) regime' newPrice

/-- `generateMarkov` (forecast array; regime name/probability fields and
metrics are presentational). -/
noncomputable def generateMarkov (prices : List ℝ) (horizon regimesParam : ℕ)
    (rnd1 rnd2 rnd3 : ℕ → ℝ) : List FPoint :=
  markovGo regimesParam horizon rnd1 rnd2 rnd3 horizon 0
    (markovInitRegime prices) (prices.getLastD 0)

/-- The exogenous series of the VAR model (the source calls them the macro
variables; the name is shortened here). -/
inductive ExogVar
  | sp500
  | gold
  | vix

/-- The synthetic equity-index series: `4000 + sin(i*0.1)*200 + rnd*100`. -/
noncomputable def varSp500 (n : ℕ) (rnd : ℕ → ℝ) : List ℝ :=
  (List.range n).map fun (i : ℕ) => 4000 + Real.sin ((i : ℝ) * 0.1) * 200 + rnd i * 100

/-- The synthetic gold series: `2000 + cos(i*0.05)*100 + rnd*50`. -/
noncomputable def varGold (n : ℕ) (rnd : ℕ → ℝ) : List ℝ :=
  (List.range n).map fun (i : ℕ) => 2000 + Real.cos ((i : ℝ) * 0.05) * 100 + rnd i * 50

/-- The synthetic volatility-index series: `20 + sin(i*0.15)*10 + rnd*5`. -/
noncomputable def varVix (n : ℕ) (rnd : ℕ → ℝ) : List ℝ :=
  (List.range n).map fun (i : ℕ) => 20 + Real.sin ((i : ℝ) * 0.15) * 10 + rnd i * 5

/-- The fixed correlation of each exogenous variable
(`0.6`, `-0.3`, `-0.4`). -/
noncomputable def exogCorrelation : ExogVar → ℝ
  | .sp500 => 0.6
  | .gold => -0.3
  | .vix => -0.4

/-- `generateVAR`: harmonically decaying autoregressive sum of the last
`lags` prices plus the fixed-correlation contribution of the last element of
each requested exogenous series; band `±price*0.03*sqrt(step)`.  Both
contributions are computed inside the horizon loop exactly as in the source
(they do not depend on the step index). -/
noncomputable def generateVAR (prices : List ℝ) (horizon lags : ℕ)
    (exogVars : List ExogVar) (rndS rndG rndV : ℕ → ℝ) : List FPoint :=
  let c := prices.getLastD 0
  let n := prices.length
  let sp := varSp500 n rndS
  let gold := varGold n rndG
  let vix := varVix n rndV
  (List.range horizon).map fun (i : ℕ) =>
    let priceContribution := ((List.range' 1 (min lags n)).map fun lag =>
      prices.getD (n - lag) 0 * (0.1 / (lag : ℝ))).foldl (· + ·) 0
    let exogContribution := (exogVars.map fun v =>
      (match v with
        | .sp500 => sp.getLastD 0
        | .gold => gold.getLastD 0
        | .vix => vix.getLastD 0) * exogCorrelation v * 0.01).foldl (· + ·) 0
    let predictedPrice := priceContribution * 0.001 + c + exogContribution
    let uncertainty := c * 0.03 * Real.sqrt ((i : ℝ) + 1)
    ⟨predictedPrice, predictedPrice + uncertainty, predictedPrice - uncertainty, 0.8⟩

/-! ### Concrete scenario series -/

/-- The specification's 10-point scenario series
`[100,102,101,105,103,108,110,107,112,115]` (price-only points). -/
def series10 : List Item :=
  [100, 102, 101, 105, 103, 108, 110, 107, 112, 115].map fun p => ⟨p, none, none⟩

/-- A 35-point series (25 days at 100, then 10 days at 120): long enough for
ten non-null MACD values to exist, which separates the trailing-9-window
signal of the code from a signal over all values available so far. -/
def series35 : List Item :=
  (List.replicate 25 (100 : ℚ) ++ List.replicate 10 (120 : ℚ)).map fun p => ⟨p, none, none⟩

/-! ### Theorems -/

/-- `emaGo` commutes with `take`: the recurrence at an index only reads the
prefix up to that index. -/
theorem emaGo_take (m : ℚ) (prev : ℚ) (xs : List ℚ) (n : ℕ) :
    emaGo m prev (xs.take n) = (emaGo m prev xs).take n := by
  induction xs generalizing prev n with
  | nil => simp [emaGo]
  | cons x xs ih =>
    cases n with
    | zero => simp [emaGo]
    | succ n => simp [emaGo, ih]

/-- `calculateEMA` commutes with a positive `take`. -/
theorem calculateEMA_take (prices : List ℚ) (k n : ℕ) (hn : 0 < n) :
    calculateEMA (prices.take n) k = (calculateEMA prices k).take n := by
  cases prices with
  | nil => simp [calculateEMA]
  | cons p rest =>
    obtain ⟨m, rfl⟩ := Nat.exists_eq_add_of_lt hn
    simp [calculateEMA, emaGo_take]

/-- C8: the EMA value obtained by running the incremental recurrence
(`ema[0] = price[0]`, `ema[i] = price[i]*α + ema[i-1]*(1-α)`,
`α = 2/(k+1)`) over the full series equals, at every index `i`, the EMA
value recomputed from scratch over the prefix ending at `i`. -/
theorem C8_theorem (prices : List ℚ) (k i : ℕ) (h : i < prices.length) :
    (calculateEMA prices k).get? i = (calculateEMA (prices.take (i + 1)) k).get? i := by
  rw [calculateEMA_take prices k (i + 1) (Nat.succ_pos i),
    List.get?_take (Nat.lt_succ_self i)]

/-- C8 witness: the incremental EMA(12) of the 10-point scenario series and
its from-scratch prefix recomputation agree at index 3. -/
theorem C8_witness :
    3 < ([100, 102, 101, 105, 103, 108, 110, 107, 112, 115] : List ℚ).length ∧
      (calculateEMA [100, 102, 101, 105, 103, 108, 110, 107, 112, 115] 12).get? 3 =
        (calculateEMA (([100, 102, 101, 105, 103, 108, 110, 107, 112, 115] : List ℚ).take 4) 12).get? 3 :=
  ⟨by decide, C8_theorem [100, 102, 101, 105, 103, 108, 110, 107, 112, 115] 12 3 (by decide)⟩

unseal Rat.add Rat.mul Rat.inv Rat.sub Rat.ofScientific in
/-- C9 counterexample: on the scenario series, `stochD` at index 3 is a
fully computed 3-period average (`250/3`), not the `stochK` fallback
(`100`) and not undefined — the record is produced and the two fields
differ. -/
theorem C9_counterexample :
    (technicalData series10).get? 3 = some (techRecAt series10 3) ∧
      (techRecAt series10 3).stochD ≠ (techRecAt series10 3).stochK := by
  constructor
  · decide
  · decide

unseal Rat.add Rat.mul Rat.inv Rat.sub Rat.ofScientific in
/-- C9 (amended): on the 10-point scenario series, `sma_20` and `ema_26`
are `null` at every index (insufficient length); `stochD` equals the
`stochK` fallback only at indices `0..2` and from index 3 on it is the
computed 3-period average of the recomputed `%K` values; the RSI with
`period = min(14, idx+1)` is a computed number at every index, equal to
`10000/101` at indices 0 and 1 and to the exact window values beyond. -/
theorem C9_theorem :
    (∀ r ∈ enhance series10, r.sma20 = none ∧ r.ema26 = none) ∧
      (technicalData series10).map (fun r => r.enhancedRSI) =
        [10000/101, 10000/101, 200/3, 75, 200/3, 2200/31, 1300/19, 1300/21, 450/7, 700/11] ∧
      (technicalData series10).map (fun r => r.stochK) =
        [50, 100, 50, 100, 60, 100, 100, 70, 100, 100] ∧
      (technicalData series10).map (fun r => r.stochD) =
        [50, 100, 50, 250/3, 70, 260/3, 260/3, 90, 90, 90] := by
  refine ⟨by decide, by decide, by decide, by decide⟩

unseal Rat.add Rat.mul Rat.inv Rat.sub Rat.ofScientific in
/-- C5 counterexample: on the strictly increasing series `[1, 2]`, the RSI
past warm-up is `10000/101 ≈ 99.01`, not `100` (the `avg_loss = 0` branch
caps `rs` at 100, so the RSI formula yields `100 - 100/101`). -/
theorem C5_counterexample :
    (1 : ℚ) < 2 ∧
      (technicalData ([1, 2].map fun p => ⟨p, none, none⟩)).get? 1 =
        some ⟨10000/101, 100, 100, 0, 200/3, 0⟩ ∧
      (10000/101 : ℚ) ≠ 100 := by
  refine ⟨by decide, by decide, by decide⟩

/-- Indexing into a JS slice reads the underlying list. -/
theorem jsSlice_getElem? (l : List α) (a b j : ℕ) (h : a + j < b) :
    (jsSlice l a b)[j]? = l[a + j]? := by
  simp only [jsSlice, List.getElem?_drop]
  exact List.getElem?_take_of_lt h

/-- Length of a JS slice with an in-range upper end. -/
theorem jsSlice_length (l : List α) (a b : ℕ) (h : b ≤ l.length) :
    (jsSlice l a b).length = b - a := by
  simp [jsSlice, Nat.min_eq_left h]

/-- The oscillator window at an in-range index has exactly `rsiPeriod i`
points. -/
theorem techWindow_length (items : List Item) (i : ℕ) (h : i < items.length) :
    (techWindow items i).length = rsiPeriod i := by
  rw [techWindow, jsSlice_length _ _ _ (by omega)]
  have : rsiPeriod i ≤ i + 1 := min_le_right _ _
  omega

/-- Indexing into the oscillator window. -/
theorem techWindow_getElem? (items : List Item) (i j : ℕ)
    (hj : j < rsiPeriod i) :
    (techWindow items i)[j]? = items[i + 1 - rsiPeriod i + j]? := by
  have : rsiPeriod i ≤ i + 1 := min_le_right _ _
  exact jsSlice_getElem? _ _ _ _ (by omega)

/-- A strictly increasing run of window prices pushes no losses. -/
theorem gainsLosses_snd_nil (w : List Item)
    (h : ∀ j, j + 1 < w.length → (w.getD j ⟨0, none, none⟩).price <
      (w.getD (j + 1) ⟨0, none, none⟩).price) :
    (gainsLosses w).2 = [] := by
  induction w with
  | nil => simp [gainsLosses]
  | cons a t ih =>
    cases t with
    | nil => simp [gainsLosses]
    | cons b rest =>
      have hab : a.price < b.price := by
        have := h 0 (by simp)
        simpa using this
      have hrec : (gainsLosses (b :: rest)).2 = [] := by
        refine ih fun j hj => ?_
        have := h (j + 1) (by simpa using Nat.succ_lt_succ hj)
        simpa using this
      simp only [gainsLosses, hrec]
      rw [if_pos (by linarith)]

/-- Every element of a max-fold bounds from below. -/
theorem le_foldl_max (xs : List ℚ) (acc : ℚ) :
    acc ≤ xs.foldl max acc ∧ ∀ x ∈ xs, x ≤ xs.foldl max acc := by
  induction xs generalizing acc with
  | nil => simp
  | cons y ys ih =>
    refine ⟨le_trans (le_max_left acc y) (ih (max acc y)).1, fun x hx => ?_⟩
    rcases List.mem_cons.1 hx with rfl | hx
    · exact le_trans (le_max_right acc x) (ih (max acc x)).1
    · exact (ih (max acc y)).2 x hx

/-- A max-fold lands on the accumulator or in the list. -/
theorem foldl_max_mem (xs : List ℚ) (acc : ℚ) :
    xs.foldl max acc = acc ∨ xs.foldl max acc ∈ xs := by
  induction xs generalizing acc with
  | nil => simp
  | cons y ys ih =>
    simp only [List.foldl_cons]
    rcases ih (max acc y) with h | h
    · rcases max_cases acc y with ⟨he, _⟩ | ⟨he, _⟩
      · exact Or.inl (h.trans he)
      · refine Or.inr ?_
        rw [h.trans he]
        exact List.mem_cons_self _ _
    · exact Or.inr (List.mem_cons_of_mem _ h)

/-- `jsMax` is the maximum: it bounds every element and is attained. -/
theorem jsMax_spec (l : List ℚ) (hne : l ≠ []) :
    jsMax l ∈ l ∧ ∀ x ∈ l, x ≤ jsMax l := by
  cases l with
  | nil => exact absurd rfl hne
  | cons x xs =>
    constructor
    · rcases foldl_max_mem xs x with h | h
      · simp [jsMax, h]
      · exact List.mem_cons_of_mem _ (by simpa [jsMax] using h)
    · intro y hy
      rcases List.mem_cons.1 hy with rfl | hy
      · exact (le_foldl_max xs y).1
      · exact (le_foldl_max xs x).2 y hy

/-- Every element of a min-fold bounds from above. -/
theorem foldl_min_le (xs : List ℚ) (acc : ℚ) :
    xs.foldl min acc ≤ acc ∧ ∀ x ∈ xs, xs.foldl min acc ≤ x := by
  induction xs generalizing acc with
  | nil => simp
  | cons y ys ih =>
    refine ⟨le_trans (ih (min acc y)).1 (min_le_left acc y), fun x hx => ?_⟩
    rcases List.mem_cons.1 hx with rfl | hx
    · exact le_trans (ih (min acc x)).1 (min_le_right acc x)
    · exact (ih (min acc y)).2 x hx

/-- A min-fold lands on the accumulator or in the list. -/
theorem foldl_min_mem (xs : List ℚ) (acc : ℚ) :
    xs.foldl min acc = acc ∨ xs.foldl min acc ∈ xs := by
  induction xs generalizing acc with
  | nil => simp
  | cons y ys ih =>
    simp only [List.foldl_cons]
    rcases ih (min acc y) with h | h
    · rcases min_cases acc y with ⟨he, _⟩ | ⟨he, _⟩
      · exact Or.inl (h.trans he)
      · refine Or.inr ?_
        rw [h.trans he]
        exact List.mem_cons_self _ _
    · exact Or.inr (List.mem_cons_of_mem _ h)

/-- `jsMin` is the minimum: it bounds every element and is attained. -/
theorem jsMin_spec (l : List ℚ) (hne : l ≠ []) :
    jsMin l ∈ l ∧ ∀ x ∈ l, jsMin l ≤ x := by
  cases l with
  | nil => exact absurd rfl hne
  | cons x xs =>
    constructor
    · rcases foldl_min_mem xs x with h | h
      · simp [jsMin, h]
      · exact List.mem_cons_of_mem _ (by simpa [jsMin] using h)
    · intro y hy
      rcases List.mem_cons.1 hy with rfl | hy
      · exact (foldl_min_le xs y).1
      · exact (foldl_min_le xs x).2 y hy

/-- Monotone access along a strictly increasing price list. -/
theorem getD_mono_of_strict (ps : List ℚ)
    (hm : ∀ k, k + 1 < ps.length → ps.getD k 0 < ps.getD (k + 1) 0) :
    ∀ k l, k ≤ l → l < ps.length → ps.getD k 0 ≤ ps.getD l 0 := by
  intro k l hkl
  induction hkl with
  | refl => exact fun _ => le_refl _
  | @step m hkm ih => exact fun hl => le_trans (ih (by omega)) (le_of_lt (hm m hl))

/-- Strict monotone access along a strictly increasing price list. -/
theorem getD_strict_of_strict (ps : List ℚ)
    (hm : ∀ k, k + 1 < ps.length → ps.getD k 0 < ps.getD (k + 1) 0) :
    ∀ k l, k < l → l < ps.length → ps.getD k 0 < ps.getD l 0 := by
  intro k l hkl hl
  have h1 : ps.getD k 0 ≤ ps.getD (l - 1) 0 :=
    getD_mono_of_strict ps hm k (l - 1) (by omega) (by omega)
  have h2 : ps.getD (l - 1) 0 < ps.getD l 0 := by
    have := hm (l - 1) (by omega)
    have he : l - 1 + 1 = l := by omega
    rwa [he] at this
  exact lt_of_le_of_lt h1 h2

/-- C5 (amended): for a strictly monotonically increasing price series, at
every index past warm-up the RSI equals `10000/101` (the `avg_loss = 0`
branch fixes `rs = 100`, so `rsi = 100 - 100/101`, about `99.01`, not `100`)
and the Williams %R equals `0` exactly. -/
theorem C5_theorem (ps : List ℚ)
    (hm : ∀ k, k + 1 < ps.length → ps.getD k 0 < ps.getD (k + 1) 0)
    (i : ℕ) (h1 : 1 ≤ i) (hi : i < ps.length) :
    (techRecAt (ps.map fun p => ⟨p, none, none⟩) i).enhancedRSI = 10000 / 101 ∧
      (techRecAt (ps.map fun p => ⟨p, none, none⟩) i).williamsR = 0 := by
  set items := ps.map (fun p => (⟨p, none, none⟩ : Item)) with hitems
  have hlen : items.length = ps.length := by simp [hitems]
  have hP2 : 2 ≤ rsiPeriod i := by
    unfold rsiPeriod; omega
  have hPle : rsiPeriod i ≤ i + 1 := min_le_right _ _
  have hwlen : (techWindow items i).length = rsiPeriod i :=
    techWindow_length _ _ (by omega)
  have hgetP : ∀ k, k < ps.length →
      items.getD k ⟨0, none, none⟩ = ⟨ps.getD k 0, none, none⟩ := by
    intro k hk
    simp [hitems, List.getD_eq_getElem?_getD, List.getElem?_map,
      List.getElem?_eq_getElem (by simpa using hk : k < (ps.map fun p => (⟨p, none, none⟩ : Item)).length)]
    simp [List.getElem?_eq_getElem hk]
  have hwget : ∀ j, j < rsiPeriod i →
      (techWindow items i).getD j ⟨0, none, none⟩ =
        ⟨ps.getD (i + 1 - rsiPeriod i + j) 0, none, none⟩ := by
    intro j hj
    rw [List.getD_eq_getElem?_getD, techWindow_getElem? items i j hj,
      ← List.getD_eq_getElem?_getD]
    exact hgetP _ (by omega)
  -- RSI: a strictly increasing window pushes no losses, so rs = 100.
  have hlosses : (gainsLosses (techWindow items i)).2 = [] := by
    apply gainsLosses_snd_nil
    intro j hj
    rw [hwlen] at hj
    rw [hwget j (by omega), hwget (j + 1) (by omega)]
    have hstep := hm (i + 1 - rsiPeriod i + j) (by omega)
    have he : i + 1 - rsiPeriod i + j + 1 = i + 1 - rsiPeriod i + (j + 1) := by omega
    rw [he] at hstep
    simpa using hstep
  have havgLoss : avgLoss (techWindow items i) = 0 := by
    unfold avgLoss
    rw [hlosses]
    simp
  have hrs : rsOf (techWindow items i) = 100 := by
    unfold rsOf
    rw [if_pos havgLoss]
  -- Window elements are price-only, so highs and lows resolve to prices.
  have hshape : ∀ x ∈ techWindow items i, Item.hi x = x.price ∧ Item.lo x = x.price := by
    intro x hx
    have hx' : x ∈ items := by
      have h1' := List.mem_of_mem_drop hx
      exact List.mem_of_mem_take h1'
    obtain ⟨p, _, rfl⟩ := List.mem_map.1 (hitems ▸ hx')
    simp [Item.hi, Item.lo, jsOr]
  have hmaphi : (techWindow items i).map Item.hi = (techWindow items i).map Item.price :=
    List.map_congr_left fun x hx => (hshape x hx).1
  have hmaplo : (techWindow items i).map Item.lo = (techWindow items i).map Item.price :=
    List.map_congr_left fun x hx => (hshape x hx).2
  have hwne : (techWindow items i).map Item.price ≠ [] := by
    intro hcon
    have := congrArg List.length hcon
    simp [hwlen] at this
    omega
  -- every window price is between the first and the current price
  have hbound : ∀ y ∈ (techWindow items i).map Item.price,
      ps.getD (i + 1 - rsiPeriod i) 0 ≤ y ∧ y ≤ ps.getD i 0 := by
    intro y hy
    obtain ⟨x, hx, rfl⟩ := List.mem_map.1 hy
    obtain ⟨j, hjlen, rfl⟩ := List.mem_iff_getElem.1 hx
    have hj : j < rsiPeriod i := by rwa [hwlen] at hjlen
    have hxj : (techWindow items i)[j] = (⟨ps.getD (i + 1 - rsiPeriod i + j) 0, none, none⟩ : Item) := by
      have := hwget j hj
      rwa [List.getD_eq_getElem?_getD, List.getElem?_eq_getElem hjlen, Option.getD_some] at this
    rw [hxj]
    constructor
    · exact getD_mono_of_strict ps hm _ _ (Nat.le_add_right _ _) (by omega)
    · exact getD_mono_of_strict ps hm _ _ (by omega) hi
  -- the current price sits in the window (last slot)
  have hmemi : ps.getD i 0 ∈ (techWindow items i).map Item.price := by
    have hjlen : rsiPeriod i - 1 < (techWindow items i).length := by omega
    have hxj : (techWindow items i)[rsiPeriod i - 1] =
        (⟨ps.getD i 0, none, none⟩ : Item) := by
      have := hwget (rsiPeriod i - 1) (by omega)
      rw [List.getD_eq_getElem?_getD, List.getElem?_eq_getElem hjlen, Option.getD_some] at this
      have he : i + 1 - rsiPeriod i + (rsiPeriod i - 1) = i := by omega
      rwa [he] at this
    exact List.mem_map.2 ⟨_, List.getElem_mem hjlen, by rw [hxj]⟩
  -- and so does the window's first price
  have hmema : ps.getD (i + 1 - rsiPeriod i) 0 ∈ (techWindow items i).map Item.price := by
    have hjlen : 0 < (techWindow items i).length := by omega
    have hxj : (techWindow items i)[0] =
        (⟨ps.getD (i + 1 - rsiPeriod i) 0, none, none⟩ : Item) := by
      have := hwget 0 (by omega)
      rw [List.getD_eq_getElem?_getD, List.getElem?_eq_getElem hjlen, Option.getD_some] at this
      simpa using this
    exact List.mem_map.2 ⟨_, List.getElem_mem hjlen, by rw [hxj]⟩
  have hhigh : high14At items i = ps.getD i 0 := by
    unfold high14At
    rw [hmaphi]
    obtain ⟨hmem, hub⟩ := jsMax_spec _ hwne
    exact le_antisymm ((hbound _ hmem).2) (hub _ hmemi)
  have hlow : low14At items i = ps.getD (i + 1 - rsiPeriod i) 0 := by
    unfold low14At
    rw [hmaplo]
    obtain ⟨hmem, hlb⟩ := jsMin_spec _ hwne
    exact le_antisymm (hlb _ hmema) ((hbound _ hmem).1)
  have hne' : low14At items i ≠ high14At items i := by
    rw [hhigh, hlow]
    exact ne_of_lt (getD_strict_of_strict ps hm _ _ (by omega) hi)
  have hpi : (items.getD i ⟨0, none, none⟩).price = ps.getD i 0 := by
    rw [hgetP i hi]
  constructor
  · show rsiAt items i = 10000 / 101
    unfold rsiAt
    rw [hrs]
    norm_num
  · show williamsRAt items i = 0
    unfold williamsRAt
    rw [if_neg hne', hpi, hhigh]
    simp

/-- C5 witness: the amended RSI/Williams values on the concrete strictly
increasing series `[1, 2, 3]` at index 2. -/
theorem C5_witness :
    (∀ k, k + 1 < ([1, 2, 3] : List ℚ).length →
      ([1, 2, 3] : List ℚ).getD k 0 < ([1, 2, 3] : List ℚ).getD (k + 1) 0) ∧
      (1 ≤ 2 ∧ 2 < ([1, 2, 3] : List ℚ).length) ∧
      ((techRecAt ([1, 2, 3].map fun p => ⟨p, none, none⟩) 2).enhancedRSI = 10000 / 101 ∧
        (techRecAt ([1, 2, 3].map fun p => ⟨p, none, none⟩) 2).williamsR = 0) := by
  have hm3 : ∀ k, k + 1 < ([1, 2, 3] : List ℚ).length →
      ([1, 2, 3] : List ℚ).getD k 0 < ([1, 2, 3] : List ℚ).getD (k + 1) 0 := by
    intro k hk
    have hk2 : k < 2 := by
      simp at hk
      omega
    interval_cases k <;> norm_num [List.getD]
  exact ⟨hm3, ⟨by norm_num, by norm_num⟩, C5_theorem [1, 2, 3] hm3 2 (by norm_num) (by norm_num)⟩

/-- Gains and losses are nonnegative (a gain is a strictly positive change,
a loss an absolute value). -/
theorem gainsLosses_nonneg (w : List Item) :
    (∀ x ∈ (gainsLosses w).1, 0 ≤ x) ∧ ∀ x ∈ (gainsLosses w).2, 0 ≤ x := by
  induction w with
  | nil => simp [gainsLosses]
  | cons a t ih =>
    cases t with
    | nil => simp [gainsLosses]
    | cons b rest =>
      obtain ⟨ihg, ihl⟩ := ih
      by_cases hc : 0 < b.price - a.price
      · simp only [gainsLosses, if_pos hc]
        refine ⟨fun x hx => ?_, ihl⟩
        rcases List.mem_cons.1 hx with rfl | hx
        · exact le_of_lt hc
        · exact ihg x hx
      · simp only [gainsLosses, if_neg hc]
        refine ⟨ihg, fun x hx => ?_⟩
        rcases List.mem_cons.1 hx with rfl | hx
        · exact abs_nonneg _
        · exact ihl x hx

/-- A fold-sum of nonnegatives from a nonnegative start is nonnegative. -/
theorem foldl_add_nonneg (l : List ℚ) (acc : ℚ) (hacc : 0 ≤ acc)
    (h : ∀ x ∈ l, 0 ≤ x) : 0 ≤ l.foldl (· + ·) acc := by
  induction l generalizing acc with
  | nil => simpa
  | cons y ys ih =>
    have hy : 0 ≤ y := h y (by simp)
    exact ih (acc + y) (by linarith) fun x hx => h x (List.mem_cons_of_mem _ hx)

/-- `avgGain` is nonnegative. -/
theorem avgGain_nonneg (w : List Item) : 0 ≤ avgGain w := by
  simp only [avgGain]
  split
  · exact le_refl 0
  · exact div_nonneg (foldl_add_nonneg _ _ (le_refl 0) (gainsLosses_nonneg w).1)
      (Nat.cast_nonneg _)

/-- `avgLoss` is nonnegative. -/
theorem avgLoss_nonneg (w : List Item) : 0 ≤ avgLoss w := by
  simp only [avgLoss]
  split
  · exact le_refl 0
  · exact div_nonneg (foldl_add_nonneg _ _ (le_refl 0) (gainsLosses_nonneg w).2)
      (Nat.cast_nonneg _)

/-- `rs` is nonnegative (either the capped 100 or a ratio of nonnegatives). -/
theorem rsOf_nonneg (w : List Item) : 0 ≤ rsOf w := by
  unfold rsOf
  split
  · norm_num
  · exact div_nonneg (avgGain_nonneg w) (avgLoss_nonneg w)

/-- The RSI value is always within `[0, 100]`. -/
theorem rsiAt_bounds (items : List Item) (i : ℕ) :
    0 ≤ rsiAt items i ∧ rsiAt items i ≤ 100 := by
  have h0 : 0 ≤ rsOf (techWindow items i) := rsOf_nonneg _
  unfold rsiAt
  have hpos : (0 : ℚ) < 1 + rsOf (techWindow items i) := by linarith
  constructor
  · have hle : 100 / (1 + rsOf (techWindow items i)) ≤ 100 := by
      rw [div_le_iff hpos]
      nlinarith
    linarith
  · have hgt : 0 < 100 / (1 + rsOf (techWindow items i)) := by positivity
    linarith

/-- The stochastic %K value is within `[0, 100]` on a series whose resolved
highs/lows bracket the close. -/
theorem stochKAt_bounds (items : List Item)
    (hv : ∀ it ∈ items, it.lo ≤ it.price ∧ it.price ≤ it.hi)
    (i : ℕ) (hi : i < items.length) :
    0 ≤ stochKAt items i ∧ stochKAt items i ≤ 100 := by
  have hP2 : 1 ≤ rsiPeriod i := by unfold rsiPeriod; omega
  have hPle : rsiPeriod i ≤ i + 1 := min_le_right _ _
  have hwlen : (techWindow items i).length = rsiPeriod i :=
    techWindow_length _ _ hi
  -- the current item sits at the last window slot
  have hjlen : rsiPeriod i - 1 < (techWindow items i).length := by omega
  have hcur : (techWindow items i)[rsiPeriod i - 1] = items.getD i ⟨0, none, none⟩ := by
    have h2 := techWindow_getElem? items i (rsiPeriod i - 1) (by omega)
    have he : i + 1 - rsiPeriod i + (rsiPeriod i - 1) = i := by omega
    rw [he] at h2
    rw [List.getElem?_eq_getElem hjlen, List.getElem?_eq_getElem (by omega : i < items.length)] at h2
    rw [Option.some.inj h2, List.getD_eq_getElem?_getD, List.getElem?_eq_getElem (by omega : i < items.length)]
    rfl
  have hmemcur : items.getD i ⟨0, none, none⟩ ∈ techWindow items i := by
    rw [← hcur]
    exact List.getElem_mem hjlen
  have hmemit : items.getD i ⟨0, none, none⟩ ∈ items := by
    rw [List.getD_eq_getElem?_getD, List.getElem?_eq_getElem hi, Option.getD_some]
    exact List.getElem_mem hi
  have hbr := hv _ hmemit
  have hwne : (techWindow items i).map Item.hi ≠ [] := by
    intro hcon
    have := congrArg List.length hcon
    simp [hwlen] at this
    omega
  have hwne' : (techWindow items i).map Item.lo ≠ [] := by
    intro hcon
    have := congrArg List.length hcon
    simp [hwlen] at this
    omega
  have hhigh : (items.getD i ⟨0, none, none⟩).price ≤ high14At items i := by
    refine le_trans hbr.2 ((jsMax_spec _ hwne).2 _ ?_)
    exact List.mem_map.2 ⟨_, hmemcur, rfl⟩
  have hlow : low14At items i ≤ (items.getD i ⟨0, none, none⟩).price := by
    refine le_trans ((jsMin_spec _ hwne').2 _ ?_) hbr.1
    exact List.mem_map.2 ⟨_, hmemcur, rfl⟩
  unfold stochKAt
  by_cases he : low14At items i = high14At items i
  · rw [if_pos he]
    norm_num
  · rw [if_neg he]
    have hlt : low14At items i < high14At items i :=
      lt_of_le_of_ne (le_trans hlow hhigh) he
    have hd : (0 : ℚ) < high14At items i - low14At items i := by linarith
    constructor
    · have : (0 : ℚ) ≤ ((items.getD i ⟨0, none, none⟩).price - low14At items i) /
          (high14At items i - low14At items i) := by
        apply div_nonneg _ (le_of_lt hd)
        linarith
      nlinarith
    · have hle1 : ((items.getD i ⟨0, none, none⟩).price - low14At items i) /
          (high14At items i - low14At items i) ≤ 1 := by
        rw [div_le_one hd]
        linarith
      nlinarith

/-- The stochastic %D value is within `[0, 100]` under the same bracketing.
-/
theorem stochDAt_bounds (items : List Item)
    (hv : ∀ it ∈ items, it.lo ≤ it.price ∧ it.price ≤ it.hi)
    (i : ℕ) (hi : i < items.length) :
    0 ≤ stochDAt items i ∧ stochDAt items i ≤ 100 := by
  unfold stochDAt
  by_cases h3 : 3 ≤ i
  · rw [if_pos h3]
    have hslice : (jsSlice items (i - 2) (i + 1)).length = 3 := by
      rw [jsSlice_length _ _ _ (by omega)]
      omega
    rw [hslice]
    have e3 : List.range 3 = [0, 1, 2] := rfl
    rw [e3]
    simp only [List.map_cons, List.map_nil, List.foldl_cons, List.foldl_nil]
    have h0 := stochKAt_bounds items hv (i - 2 + 0) (by omega)
    have h1 := stochKAt_bounds items hv (i - 2 + 1) (by omega)
    have h2 := stochKAt_bounds items hv (i - 2 + 2) (by omega)
    constructor
    · have : (0 : ℚ) ≤ 0 + stochKAt items (i - 2 + 0) + stochKAt items (i - 2 + 1) +
          stochKAt items (i - 2 + 2) := by linarith [h0.1, h1.1, h2.1]
      linarith [div_nonneg this (by norm_num : (0 : ℚ) ≤ 3)]
    · rw [div_le_iff (by norm_num : (0 : ℚ) < 3)]
      linarith [h0.2, h1.2, h2.2]
  · rw [if_neg h3]
    exact stochKAt_bounds items hv i hi

/-- C6: at every index of every valid series (resolved lows below the
close, resolved highs above it — the PricePoint construction invariant),
the computed RSI lies in `[0, 100]` and the stochastic %K and %D lie in
`[0, 100]`. -/
theorem C6_theorem (items : List Item)
    (hv : ∀ it ∈ items, it.lo ≤ it.price ∧ it.price ≤ it.hi)
    (i : ℕ) (r : TechRec) (hr : (technicalData items)[i]? = some r) :
    (0 ≤ r.enhancedRSI ∧ r.enhancedRSI ≤ 100) ∧
      (0 ≤ r.stochK ∧ r.stochK ≤ 100) ∧
      (0 ≤ r.stochD ∧ r.stochD ≤ 100) := by
  have hlen : i < items.length := by
    by_contra hcon
    rw [List.getElem?_eq_none (by simp [technicalData]; omega)] at hr
    exact Option.noConfusion hr
  have hre : r = techRecAt items i := by
    have h2 : (technicalData items)[i]? = some (techRecAt items i) := by
      simp [technicalData, List.getElem?_range hlen]
    rw [h2] at hr
    exact (Option.some.inj hr).symm
  subst hre
  exact ⟨rsiAt_bounds items i,
    stochKAt_bounds items hv i hlen,
    stochDAt_bounds items hv i hlen⟩

unseal Rat.add Rat.mul Rat.inv Rat.sub Rat.ofScientific in
/-- C6 witness: the bounds at index 1 of a concrete two-point series with
explicit high/low fields. -/
theorem C6_witness :
    (∀ it ∈ [(⟨1, none, none⟩ : Item), ⟨2, some 3, some 1⟩],
      it.lo ≤ it.price ∧ it.price ≤ it.hi) ∧
      (technicalData [(⟨1, none, none⟩ : Item), ⟨2, some 3, some 1⟩])[1]? =
        some (techRecAt [(⟨1, none, none⟩ : Item), ⟨2, some 3, some 1⟩] 1) ∧
      ((0 ≤ (techRecAt [(⟨1, none, none⟩ : Item), ⟨2, some 3, some 1⟩] 1).enhancedRSI ∧
          (techRecAt [(⟨1, none, none⟩ : Item), ⟨2, some 3, some 1⟩] 1).enhancedRSI ≤ 100) ∧
        (0 ≤ (techRecAt [(⟨1, none, none⟩ : Item), ⟨2, some 3, some 1⟩] 1).stochK ∧
          (techRecAt [(⟨1, none, none⟩ : Item), ⟨2, some 3, some 1⟩] 1).stochK ≤ 100) ∧
        (0 ≤ (techRecAt [(⟨1, none, none⟩ : Item), ⟨2, some 3, some 1⟩] 1).stochD ∧
          (techRecAt [(⟨1, none, none⟩ : Item), ⟨2, some 3, some 1⟩] 1).stochD ≤ 100)) :=
  ⟨by decide, by decide,
    C6_theorem [(⟨1, none, none⟩ : Item), ⟨2, some 3, some 1⟩] (by decide) 1
      (techRecAt [(⟨1, none, none⟩ : Item), ⟨2, some 3, some 1⟩] 1) (by decide)⟩

/-- The per-record survivor of the amended signal filter agrees with
"map through `macdVal`, then drop exact zeroes". -/
theorem mval_pointwise (d : Enh) :
    (do
      let e12 ← d.ema12
      let e26 ← d.ema26
      if e12 = 0 ∨ e26 = 0 ∨ e12 - e26 = 0 then none else some (e12 - e26)) =
      if macdVal d = 0 then none else some (macdVal d) := by
  rcases d with ⟨p, h, l, s, e12o, e26o⟩
  cases e12o with
  | none => simp [macdVal, truthy]
  | some e12 =>
    cases e26o with
    | none => simp [macdVal, truthy]
    | some e26 =>
      by_cases h12 : e12 = 0
      · simp [macdVal, truthy, h12]
      · by_cases h26 : e26 = 0
        · simp [macdVal, truthy, h12, h26]
        · by_cases hd : e12 - e26 = 0
          · simp [macdVal, truthy, h12, h26, hd]
          · simp [macdVal, truthy, h12, h26, hd]

/-- Filtering the zeroes out of a mapped list is the same `filterMap`. -/
theorem filterMap_if_eq_filter_map (f : α → ℚ) (l : List α) :
    l.filterMap (fun d => if f d = 0 then none else some (f d)) =
      (l.map f).filter (· != 0) := by
  induction l with
  | nil => simp
  | cons d t ih =>
    by_cases h : f d = 0
    · simp [h, ih, List.filter_cons]
    · simp [h, ih, List.filter_cons]

/-- A JS slice with an in-range end is the map of `getD` over the index
range. -/
theorem jsSlice_eq_range'_map (data : List Enh) (a b : ℕ) (hb : b ≤ data.length) :
    jsSlice data a b = (List.range' a (b - a)).map
      (fun j => data.getD j ⟨0, none, none, none, none, none⟩) := by
  apply List.ext_getElem?
  intro j
  by_cases hj : j < b - a
  · rw [jsSlice_getElem? _ _ _ _ (by omega), List.getElem?_map,
      List.getElem?_range' a 1 hj]
    simp only [one_mul, Option.map_some']
    rw [List.getD_eq_getElem?_getD, List.getElem?_eq_getElem (by omega : a + j < data.length),
      Option.getD_some]
  · rw [List.getElem?_eq_none, List.getElem?_eq_none]
    · rw [List.length_map, List.length_range']
      omega
    · rw [jsSlice_length _ _ _ hb]
      omega

/-- The filtered range of the amended signal window is the contiguous index
range `max(0, i-8) .. i`. -/
theorem rangeFilter_eq_range' (i : ℕ) :
    (List.range (i + 1)).filter (fun j => decide (i ≤ j + 8)) =
      List.range' (i - 8) (i + 1 - (i - 8)) := by
  rw [List.range_eq_range']
  have hsplit : List.range' 0 (i + 1) =
      List.range' 0 (i - 8) ++ List.range' (0 + (i - 8)) (i + 1 - (i - 8)) := by
    rw [List.range'_append_1]
    congr 1
    omega
  rw [hsplit, List.filter_append]
  have h1 : (List.range' 0 (i - 8)).filter (fun j => decide (i ≤ j + 8)) = [] := by
    rw [List.filter_eq_nil_iff]
    intro a ha
    obtain ⟨k, hk, rfl⟩ := List.mem_range'.1 ha
    simp only [decide_eq_true_eq]
    omega
  have h2 : (List.range' (0 + (i - 8)) (i + 1 - (i - 8))).filter
      (fun j => decide (i ≤ j + 8)) = List.range' (0 + (i - 8)) (i + 1 - (i - 8)) := by
    rw [List.filter_eq_self]
    intro a ha
    obtain ⟨k, hk, rfl⟩ := List.mem_range'.1 ha
    simp only [decide_eq_true_eq]
    omega
  rw [h1, h2, List.nil_append]
  congr 1
  omega

/-- The code's filtered MACD window equals the amended claim's window. -/
theorem macdValues_eq_amended (data : List Enh) (i : ℕ) (hlen : i < data.length) :
    ((jsSlice data (i - 8) (i + 1)).map macdVal).filter (· != 0) =
      ((List.range (i + 1)).filter (fun j => decide (i ≤ j + 8))).filterMap
        (fun j => do
          let d ← data.get? j
          let e12 ← d.ema12
          let e26 ← d.ema26
          if e12 = 0 ∨ e26 = 0 ∨ e12 - e26 = 0 then none else some (e12 - e26)) := by
  rw [rangeFilter_eq_range' i,
    jsSlice_eq_range'_map data (i - 8) (i + 1) (by omega),
    ← filterMap_if_eq_filter_map macdVal, List.filterMap_map]
  apply List.filterMap_congr
  intro j hj
  obtain ⟨k, hk, rfl⟩ := List.mem_range'.1 hj
  have hjlt : i - 8 + 1 * k < data.length := by omega
  have hget : data.get? (i - 8 + 1 * k) =
      some (data.getD (i - 8 + 1 * k) ⟨0, none, none, none, none, none⟩) := by
    rw [List.get?_eq_getElem?, List.getElem?_eq_getElem hjlt,
      List.getD_eq_getElem?_getD, List.getElem?_eq_getElem hjlt, Option.getD_some]
  show (if macdVal (data.getD (i - 8 + 1 * k) ⟨0, none, none, none, none, none⟩) = 0
      then none
      else some (macdVal (data.getD (i - 8 + 1 * k) ⟨0, none, none, none, none, none⟩))) = _
  rw [hget]
  exact (mval_pointwise _).symm

set_option maxRecDepth 100000 in
unseal Rat.add Rat.mul Rat.inv Rat.sub Rat.ofScientific in
/-- C7 counterexample: on the 35-point series, `ema_12`/`ema_26` are defined
at index 34 (the MACD is non-null), yet the computed signal differs from the
9-period EMA of the non-null MACD values available so far — the code only
feeds the trailing 9-entry window (and also drops exact-zero MACD values),
while ten non-null values are already available. -/
theorem C7_counterexample :
    (macdData (enhance series35))[34]? = some (macdRecAt (enhance series35) 34) ∧
      (macdRecAt (enhance series35) 34).macd ≠ none ∧
      (macdRecAt (enhance series35) 34).signal ≠
        some (signalClaim (enhance series35) 34) := by
  refine ⟨by decide, by decide, by decide⟩

/-- C7 (amended): at every index where `ema_12` and `ema_26` are truthy, the
MACD record is produced with `macd = ema_12 - ema_26`, the signal equal to
the 9-period EMA of the **nonzero** MACD values in the trailing 9-entry
window (entries with a null EMA or an exactly-zero MACD are dropped) when 9
such values survive and equal to the MACD value itself otherwise, and the
histogram always equal to `macd - signal`. -/
theorem C7_theorem (data : List Enh) (i : ℕ) (hlen : i < data.length)
    (h12 : truthy (data.getD i ⟨0, none, none, none, none, none⟩).ema12 = true)
    (h26 : truthy (data.getD i ⟨0, none, none, none, none, none⟩).ema26 = true) :
    (macdData data)[i]? = some
      ⟨some (macdVal (data.getD i ⟨0, none, none, none, none, none⟩)),
        some (signalAmended data i),
        some (macdVal (data.getD i ⟨0, none, none, none, none, none⟩) -
          signalAmended data i)⟩ := by
  have h1 : (macdData data)[i]? = some (macdRecAt data i) := by
    simp [macdData, List.getElem?_range hlen]
  rw [h1]
  congr 1
  have hcond : (truthy (data.getD i ⟨0, none, none, none, none, none⟩).ema12 &&
      truthy (data.getD i ⟨0, none, none, none, none, none⟩).ema26) = true := by
    rw [h12, h26]
    rfl
  have hline : (data.getD i ⟨0, none, none, none, none, none⟩).ema12.getD 0 -
      (data.getD i ⟨0, none, none, none, none, none⟩).ema26.getD 0 =
      macdVal (data.getD i ⟨0, none, none, none, none, none⟩) := by
    rw [macdVal, if_pos hcond]
  rw [macdRecAt.eq_def, if_pos hcond]
  rw [signalAmended.eq_def]
  rw [← macdValues_eq_amended data i hlen]
  simp only [hline]

set_option maxRecDepth 400000 in
unseal Rat.add Rat.mul Rat.inv Rat.sub Rat.ofScientific in
/-- C7 witness: the amended MACD record at index 34 of the 35-point series. -/
theorem C7_witness :
    (34 < (enhance series35).length ∧
      truthy ((enhance series35).getD 34 ⟨0, none, none, none, none, none⟩).ema12 = true ∧
      truthy ((enhance series35).getD 34 ⟨0, none, none, none, none, none⟩).ema26 = true) ∧
      (macdData (enhance series35))[34]? = some
        ⟨some (macdVal ((enhance series35).getD 34 ⟨0, none, none, none, none, none⟩)),
          some (signalAmended (enhance series35) 34),
          some (macdVal ((enhance series35).getD 34 ⟨0, none, none, none, none, none⟩) -
            signalAmended (enhance series35) 34)⟩ :=
  ⟨⟨by decide, by decide, by decide⟩,
    C7_theorem (enhance series35) 34 (by decide) (by decide) (by decide)⟩

/-- An empty series yields the `{}` result (all fields undefined). -/
theorem portfolioAnalytics_nil : portfolioAnalytics [] = none := by
  simp [portfolioAnalytics]

/-- A one-point series: the returns array is empty, so `mean = 0/0` is NaN;
volatility and Sharpe are NaN, every other output is exactly 0. -/
theorem portfolioAnalytics_single (x : ℝ) :
    portfolioAnalytics [x] = some
      ⟨none, some 0, some 0, some 0, some 0, some 0, none, some 0, some 0⟩ := by
  have hret : riskReturns [x] = [] := by
    simp [riskReturns]
  have hmean : meanOf [x] = none := by
    simp [meanOf, hret, jsum, jdiv]
  have hvar : varianceOf [x] = none := by
    simp [varianceOf, hret, jsum, jdiv]
  have hvol : volatilityOf [x] = none := by
    simp [volatilityOf, hvar, jsqrt, jmul]
  have hsorted : sortedReturns [x] = [] := by
    simp [sortedReturns, hret]
  have hvarAt : ∀ num den : ℕ, varAt [x] num den = 0 := by
    intro num den
    simp [varAt, hsorted, jIndexOrZero]
  have hcvar : cvar5Of [x] = some 0 := by
    simp [cvar5Of, hret]
  have hdd : maxDrawdownOf [x] = some 0 := by
    simp only [maxDrawdownOf, List.foldl_cons, List.foldl_nil]
    by_cases hx : x = 0
    · simp [jdiv, jltB, hx]
    · simp [jdiv, jltB, hx]
  have hsharpe : sharpeOf [x] = none := by
    rw [sharpeOf, if_neg (by simp [hvol]), hvol]
    simp [jdiv, excessReturnOf, hmean, jmul, jsub]
  have hdown : downsideOf [x] = [] := by
    simp [downsideOf, hret]
  have hddv : downsideDeviationOf [x] = some 0 := by
    rw [downsideDeviationOf.eq_def]
    simp [hdown]
  have hsortino : sortinoOf [x] = some 0 := by
    rw [sortinoOf, if_pos hddv]
  have hcalmar : calmarOf [x] = some 0 := by
    rw [calmarOf, if_pos hdd]
  rw [portfolioAnalytics, if_neg (by simp)]
  rw [hvol, hcvar, hdd, hsharpe, hsortino, hcalmar]
  simp [jmul, hvarAt]

/-- C3 (amended): on a zero-point series every output is undefined (the
code returns `{}`); on a one-point series the VaR 1/5/10, CVaR 5, max
drawdown, Sortino and Calmar outputs are exactly 0 as the claim says, but
the annualized volatility and the Sharpe ratio are NaN (the empty returns
array makes `mean = 0/0`), so the computation does produce NaN. -/
theorem C3_theorem :
    portfolioAnalytics [] = none ∧
      ∀ x : ℝ, portfolioAnalytics [x] = some
        ⟨none, some 0, some 0, some 0, some 0, some 0, none, some 0, some 0⟩ :=
  ⟨portfolioAnalytics_nil, portfolioAnalytics_single⟩

/-- C3 counterexample: on the one-point series `[50000]` the RiskEngine
produces a result object (not `{}`), and its volatility and Sharpe fields
are NaN (`none` in the embedding) — not 0 and not undefined. -/
theorem C3_counterexample :
    (portfolioAnalytics [50000]).map RiskMetrics.volatility = some none ∧
      (portfolioAnalytics [50000]).map RiskMetrics.sharpeRatio = some none := by
  rw [portfolioAnalytics_single 50000]
  exact ⟨rfl, rfl⟩

/-- C4: on any series of at least two positive prices, each of the three
ratios is exactly 0 (not NaN, not undefined) whenever its denominator is
exactly 0: Sharpe when the volatility is 0, Sortino when the downside
deviation is 0, Calmar when the max drawdown is 0. -/
theorem C4_theorem (prices : List ℝ) (h2 : 2 ≤ prices.length)
    (hpos : ∀ p ∈ prices, 0 < p) (r : RiskMetrics)
    (hr : portfolioAnalytics prices = some r) :
    (volatilityOf prices = some 0 → r.sharpeRatio = some 0) ∧
      (downsideDeviationOf prices = some 0 → r.sortinoRatio = some 0) ∧
      (maxDrawdownOf prices = some 0 → r.calmarRatio = some 0) := by
  rw [portfolioAnalytics, if_neg (by omega)] at hr
  obtain rfl := (Option.some.inj hr).symm
  refine ⟨fun hv => ?_, fun hd => ?_, fun hm => ?_⟩
  · show sharpeOf prices = some 0
    rw [sharpeOf, if_pos hv]
  · show sortinoOf prices = some 0
    rw [sortinoOf, if_pos hd]
  · show calmarOf prices = some 0
    rw [calmarOf, if_pos hm]

/-- The full evaluation of the RiskEngine on the constant series `[1, 1]`:
every output is exactly 0, and all three ratio denominators vanish. -/
theorem portfolioAnalytics_const2 :
    portfolioAnalytics [1, 1] = some
      ⟨some 0, some 0, some 0, some 0, some 0, some 0, some 0, some 0, some 0⟩ ∧
      volatilityOf [1, 1] = some 0 ∧ downsideDeviationOf [1, 1] = some 0 ∧
      maxDrawdownOf [1, 1] = some 0 := by
  have hret : riskReturns [1, 1] = [some 0] := by
    have h1 : List.range 1 = [0] := rfl
    simp only [riskReturns, List.length_cons, List.length_nil, h1, List.map_cons,
      List.map_nil, List.getD, jdiv]
    norm_num
  have hmean : meanOf [1, 1] = some 0 := by
    simp [meanOf, hret, jsum, jdiv, jadd]
  have hvar : varianceOf [1, 1] = some 0 := by
    simp [varianceOf, hret, hmean, jsum, jdiv, jadd, jmul, jsub]
  have hvol : volatilityOf [1, 1] = some 0 := by
    simp [volatilityOf, hvar, jsqrt, jmul]
  have hsorted : sortedReturns [1, 1] = [some 0] := by
    simp [sortedReturns, hret]
  have hzero : ∀ idx, jIndexOrZero [some 0] idx = 0 := by
    intro idx
    cases idx with
    | zero => rfl
    | succ n => rfl
  have hvarAt : ∀ num den : ℕ, varAt [1, 1] num den * 100 = 0 := by
    intro num den
    rw [varAt, hsorted, hret, hzero, zero_mul]
  have hcvar : cvar5Of [1, 1] = some 0 := by
    rw [cvar5Of.eq_def, hret]
    norm_num
  have hdd : maxDrawdownOf [1, 1] = some 0 := by
    simp only [maxDrawdownOf, List.foldl_cons, List.foldl_nil, List.getD]
    norm_num [jdiv, jltB]
  have hsharpe : sharpeOf [1, 1] = some 0 := by
    rw [sharpeOf, if_pos hvol]
  have hdown : downsideOf [1, 1] = [] := by
    simp [downsideOf, hret, hmean, jltB]
  have hddv : downsideDeviationOf [1, 1] = some 0 := by
    rw [downsideDeviationOf.eq_def]
    simp [hdown]
  have hsortino : sortinoOf [1, 1] = some 0 := by
    rw [sortinoOf, if_pos hddv]
  have hcalmar : calmarOf [1, 1] = some 0 := by
    rw [calmarOf, if_pos hdd]
  refine ⟨?_, hvol, hddv, hdd⟩
  rw [portfolioAnalytics, if_neg (by simp)]
  rw [hvol, hcvar, hdd, hsharpe, hsortino, hcalmar]
  simp only [jmul, Option.bind_some, Option.map_some', zero_mul, hvarAt]
  norm_num [hvarAt 1 100, hvarAt 5 100, hvarAt 10 100]

/-- C4 witness: on the constant two-point series `[1, 1]` all three
denominators are exactly 0 and all three ratios evaluate to exactly 0. -/
theorem C4_witness :
    (2 ≤ ([1, 1] : List ℝ).length ∧ (∀ p ∈ ([1, 1] : List ℝ), 0 < p) ∧
        portfolioAnalytics [1, 1] = some
          ⟨some 0, some 0, some 0, some 0, some 0, some 0, some 0, some 0, some 0⟩ ∧
        volatilityOf [1, 1] = some 0 ∧ downsideDeviationOf [1, 1] = some 0 ∧
        maxDrawdownOf [1, 1] = some 0) ∧
      ((⟨some 0, some 0, some 0, some 0, some 0, some 0, some 0, some 0, some 0⟩ :
          RiskMetrics).sharpeRatio = some 0 ∧
        (⟨some 0, some 0, some 0, some 0, some 0, some 0, some 0, some 0, some 0⟩ :
          RiskMetrics).sortinoRatio = some 0 ∧
        (⟨some 0, some 0, some 0, some 0, some 0, some 0, some 0, some 0, some 0⟩ :
          RiskMetrics).calmarRatio = some 0) := by
  obtain ⟨hr, hvol, hddv, hdd⟩ := portfolioAnalytics_const2
  have h := C4_theorem [1, 1] (by norm_num) (by
    intro p hp
    rcases List.mem_cons.1 hp with rfl | hp
    · norm_num
    · rcases List.mem_cons.1 hp with rfl | hp
      · norm_num
      · simp at hp) _ hr
  exact ⟨⟨by norm_num, by
    intro p hp
    rcases List.mem_cons.1 hp with rfl | hp
    · norm_num
    · rcases List.mem_cons.1 hp with rfl | hp
      · norm_num
      · simp at hp, hr, hvol, hddv, hdd⟩, h.1 hvol, h.2.1 hddv, h.2.2 hdd⟩

/-- The VAR forecast point at an in-range step. -/
theorem generateVAR_getD (prices : List ℝ) (horizon lags : ℕ)
    (ev : List ExogVar) (rndS rndG rndV : ℕ → ℝ) (k : ℕ) (hk : k < horizon) :
    (generateVAR prices horizon lags ev rndS rndG rndV).getD k ⟨0, 0, 0, 0⟩ =
      ⟨((List.range' 1 (min lags prices.length)).map fun lag =>
          prices.getD (prices.length - lag) 0 * (0.1 / (lag : ℝ))).foldl (· + ·) 0 * 0.001 +
          prices.getLastD 0 +
          ((ev.map fun v =>
            (match v with
              | .sp500 => (varSp500 prices.length rndS).getLastD 0
              | .gold => (varGold prices.length rndG).getLastD 0
              | .vix => (varVix prices.length rndV).getLastD 0) *
              exogCorrelation v * 0.01).foldl (· + ·) 0),
        (((List.range' 1 (min lags prices.length)).map fun lag =>
          prices.getD (prices.length - lag) 0 * (0.1 / (lag : ℝ))).foldl (· + ·) 0 * 0.001 +
          prices.getLastD 0 +
          ((ev.map fun v =>
            (match v with
              | .sp500 => (varSp500 prices.length rndS).getLastD 0
              | .gold => (varGold prices.length rndG).getLastD 0
              | .vix => (varVix prices.length rndV).getLastD 0) *
              exogCorrelation v * 0.01).foldl (· + ·) 0)) +
          prices.getLastD 0 * 0.03 * Real.sqrt ((k : ℝ) + 1),
        (((List.range' 1 (min lags prices.length)).map fun lag =>
          prices.getD (prices.length - lag) 0 * (0.1 / (lag : ℝ))).foldl (· + ·) 0 * 0.001 +
          prices.getLastD 0 +
          ((ev.map fun v =>
            (match v with
              | .sp500 => (varSp500 prices.length rndS).getLastD 0
              | .gold => (varGold prices.length rndG).getLastD 0
              | .vix => (varVix prices.length rndV).getLastD 0) *
              exogCorrelation v * 0.01).foldl (· + ·) 0)) -
          prices.getLastD 0 * 0.03 * Real.sqrt ((k : ℝ) + 1),
        0.8⟩ := by
  rw [generateVAR]
  rw [List.getD_eq_getElem?_getD, List.getElem?_map, List.getElem?_range hk]
  rfl

/-- C10: in the Vector Autoregression model, every forecast point of a
fixed call carries the same projected price — the autoregressive and
exogenous contributions do not depend on the step index — and the bounds
are exactly the price plus/minus `current*0.03*sqrt(step)`. -/
theorem C10_theorem (prices : List ℝ) (horizon lags : ℕ) (ev : List ExogVar)
    (rndS rndG rndV : ℕ → ℝ) (i j : ℕ) (hi : i < horizon) (hj : j < horizon) :
    ((generateVAR prices horizon lags ev rndS rndG rndV).getD i ⟨0, 0, 0, 0⟩).price =
      ((generateVAR prices horizon lags ev rndS rndG rndV).getD j ⟨0, 0, 0, 0⟩).price ∧
      ((generateVAR prices horizon lags ev rndS rndG rndV).getD i ⟨0, 0, 0, 0⟩).upperBound =
        ((generateVAR prices horizon lags ev rndS rndG rndV).getD i ⟨0, 0, 0, 0⟩).price +
          prices.getLastD 0 * 0.03 * Real.sqrt ((i : ℝ) + 1) ∧
      ((generateVAR prices horizon lags ev rndS rndG rndV).getD i ⟨0, 0, 0, 0⟩).lowerBound =
        ((generateVAR prices horizon lags ev rndS rndG rndV).getD i ⟨0, 0, 0, 0⟩).price -
          prices.getLastD 0 * 0.03 * Real.sqrt ((i : ℝ) + 1) := by
  rw [generateVAR_getD prices horizon lags ev rndS rndG rndV i hi,
    generateVAR_getD prices horizon lags ev rndS rndG rndV j hj]
  exact ⟨rfl, rfl, rfl⟩

/-- C10 witness: two steps of a concrete VAR call share the projected price
and carry the square-root bounds. -/
theorem C10_witness :
    ((0 : ℕ) < 2 ∧ (1 : ℕ) < 2) ∧
      (((generateVAR [1, 2] 2 5 [.sp500, .gold, .vix] (fun _ => 0) (fun _ => 0)
          (fun _ => 0)).getD 0 ⟨0, 0, 0, 0⟩).price =
        ((generateVAR [1, 2] 2 5 [.sp500, .gold, .vix] (fun _ => 0) (fun _ => 0)
          (fun _ => 0)).getD 1 ⟨0, 0, 0, 0⟩).price ∧
        ((generateVAR [1, 2] 2 5 [.sp500, .gold, .vix] (fun _ => 0) (fun _ => 0)
          (fun _ => 0)).getD 0 ⟨0, 0, 0, 0⟩).upperBound =
          ((generateVAR [1, 2] 2 5 [.sp500, .gold, .vix] (fun _ => 0) (fun _ => 0)
            (fun _ => 0)).getD 0 ⟨0, 0, 0, 0⟩).price +
            ([1, 2] : List ℝ).getLastD 0 * 0.03 * Real.sqrt (((0 : ℕ) : ℝ) + 1) ∧
        ((generateVAR [1, 2] 2 5 [.sp500, .gold, .vix] (fun _ => 0) (fun _ => 0)
          (fun _ => 0)).getD 0 ⟨0, 0, 0, 0⟩).lowerBound =
          ((generateVAR [1, 2] 2 5 [.sp500, .gold, .vix] (fun _ => 0) (fun _ => 0)
            (fun _ => 0)).getD 0 ⟨0, 0, 0, 0⟩).price -
            ([1, 2] : List ℝ).getLastD 0 * 0.03 * Real.sqrt (((0 : ℕ) : ℝ) + 1)) :=
  ⟨⟨by norm_num, by norm_num⟩,
    C10_theorem [1, 2] 2 5 [.sp500, .gold, .vix] (fun _ => 0) (fun _ => 0) (fun _ => 0)
      0 1 (by norm_num) (by norm_num)⟩

/-- C2 counterexample: the model's normal-CDF helper does not satisfy the
claimed closed form — the code exponentiates `-2|x|/π` where the claim has
`-2x²/π`, and at `x = π` the two values differ. -/
theorem C2_counterexample : bsN Real.pi ≠ bsNClaim Real.pi := by
  intro hcon
  have hs : Real.sign Real.pi = 1 := Real.sign_of_pos Real.pi_pos
  have habs : |Real.pi| = Real.pi := abs_of_pos Real.pi_pos
  have hpi : Real.pi ≠ 0 := Real.pi_ne_zero
  rw [bsN, bsNClaim, hs, habs] at hcon
  have h1 : -2 * Real.pi / Real.pi = -2 := by
    field_simp
  have h2 : -2 * Real.pi ^ 2 / Real.pi = -2 * Real.pi := by
    field_simp
    ring
  rw [h1, h2] at hcon
  have hsq : Real.sqrt (1 - Real.exp (-2)) = Real.sqrt (1 - Real.exp (-2 * Real.pi)) := by
    nlinarith [hcon]
  have hexp2 : Real.exp (-2 : ℝ) ≤ 1 := Real.exp_le_one_iff.2 (by norm_num)
  have hexppi : Real.exp (-2 * Real.pi) ≤ 1 :=
    Real.exp_le_one_iff.2 (by nlinarith [Real.pi_pos])
  have harg : (1 : ℝ) - Real.exp (-2) = 1 - Real.exp (-2 * Real.pi) :=
    (Real.sqrt_inj (by linarith) (by linarith)).1 hsq
  have hee : Real.exp (-2 : ℝ) = Real.exp (-2 * Real.pi) := by linarith
  have heq : (-2 : ℝ) = -2 * Real.pi := Real.exp_eq_exp.1 hee
  have hpi3 := Real.pi_gt_three
  linarith

/-- C2 (amended): the Black-Scholes model computes the three European call
values at strikes `{0.9, 1.0, 1.1}×current` by the Black-Scholes formula
(spot = the step's projected price, discounting `exp(-r t)`), whose
normal-CDF helper satisfies
`N(x) = 0.5*(1 + sign(x)*sqrt(1 - exp(-2*|x|/π)))` — that is, on positives
`N(x) = 0.5*(1 + sqrt(1 - exp(-2x/π)))`, on negatives
`N(x) = 0.5*(1 - sqrt(1 - exp(2x/π)))`, and `N(0) = 0.5`; the exponent uses
`|x|`, not `x²`. -/
theorem C2_theorem :
    (∀ x : ℝ, 0 < x →
        bsN x = 0.5 * (1 + Real.sqrt (1 - Real.exp (-2 * x / Real.pi)))) ∧
      (∀ x : ℝ, x < 0 →
        bsN x = 0.5 * (1 - Real.sqrt (1 - Real.exp (2 * x / Real.pi)))) ∧
      bsN 0 = 0.5 ∧
      ∀ (prices : List ℝ) (horizon : ℕ) (r vol : ℝ) (rnd : ℕ → ℝ) (i : ℕ),
        i < horizon →
          ((generateBlackScholes prices horizon r vol rnd)[i]?).map BSPoint.callValues =
            some
              [bsCall r vol
                  (prices.getLastD 0 * Real.exp (r * (((i : ℝ) + 1) / 365) +
                    vol * Real.sqrt (((i : ℝ) + 1) / 365) * (rnd i - 0.5) * 2))
                  (prices.getLastD 0 * 0.9) (((i : ℝ) + 1) / 365),
                bsCall r vol
                  (prices.getLastD 0 * Real.exp (r * (((i : ℝ) + 1) / 365) +
                    vol * Real.sqrt (((i : ℝ) + 1) / 365) * (rnd i - 0.5) * 2))
                  (prices.getLastD 0) (((i : ℝ) + 1) / 365),
                bsCall r vol
                  (prices.getLastD 0 * Real.exp (r * (((i : ℝ) + 1) / 365) +
                    vol * Real.sqrt (((i : ℝ) + 1) / 365) * (rnd i - 0.5) * 2))
                  (prices.getLastD 0 * 1.1) (((i : ℝ) + 1) / 365)] := by
  refine ⟨?_, ?_, ?_, ?_⟩
  · intro x hx
    rw [bsN, Real.sign_of_pos hx, abs_of_pos hx, one_mul]
  · intro x hx
    rw [bsN, Real.sign_of_neg hx, abs_of_neg hx]
    have he : -2 * -x / Real.pi = 2 * x / Real.pi := by ring
    rw [he]
    ring
  · rw [bsN, Real.sign_zero]
    norm_num
  · intro prices horizon r vol rnd i hi
    rw [generateBlackScholes]
    rw [List.getElem?_map, List.getElem?_range hi]
    rfl

/-- C2 witness: each branch of the amended helper characterization at a
concrete point, and the concrete call-value triple at step 0 of a
one-point series. -/
theorem C2_witness :
    ((0 : ℝ) < 1 ∧ bsN 1 = 0.5 * (1 + Real.sqrt (1 - Real.exp (-2 * 1 / Real.pi)))) ∧
      ((-1 : ℝ) < 0 ∧ bsN (-1) = 0.5 * (1 - Real.sqrt (1 - Real.exp (2 * -1 / Real.pi)))) ∧
      ((0 : ℕ) < 1 ∧
        ((generateBlackScholes [1] 1 0.05 0.6 (fun _ => 0))[0]?).map BSPoint.callValues =
          some
            [bsCall 0.05 0.6
                (([1] : List ℝ).getLastD 0 * Real.exp (0.05 * ((((0 : ℕ) : ℝ) + 1) / 365) +
                  0.6 * Real.sqrt ((((0 : ℕ) : ℝ) + 1) / 365) * ((fun _ : ℕ => (0 : ℝ)) 0 - 0.5) * 2))
                (([1] : List ℝ).getLastD 0 * 0.9) ((((0 : ℕ) : ℝ) + 1) / 365),
              bsCall 0.05 0.6
                (([1] : List ℝ).getLastD 0 * Real.exp (0.05 * ((((0 : ℕ) : ℝ) + 1) / 365) +
                  0.6 * Real.sqrt ((((0 : ℕ) : ℝ) + 1) / 365) * ((fun _ : ℕ => (0 : ℝ)) 0 - 0.5) * 2))
                (([1] : List ℝ).getLastD 0) ((((0 : ℕ) : ℝ) + 1) / 365),
              bsCall 0.05 0.6
                (([1] : List ℝ).getLastD 0 * Real.exp (0.05 * ((((0 : ℕ) : ℝ) + 1) / 365) +
                  0.6 * Real.sqrt ((((0 : ℕ) : ℝ) + 1) / 365) * ((fun _ : ℕ => (0 : ℝ)) 0 - 0.5) * 2))
                (([1] : List ℝ).getLastD 0 * 1.1) ((((0 : ℕ) : ℝ) + 1) / 365)]) :=
  ⟨⟨by norm_num, C2_theorem.1 1 (by norm_num)⟩,
    ⟨by norm_num, C2_theorem.2.1 (-1) (by norm_num)⟩,
    ⟨by norm_num, C2_theorem.2.2.2 [1] 1 0.05 0.6 (fun _ => 0) 0 (by norm_num)⟩⟩

/-- A positive-defaulted last element of a positive list is positive. -/
theorem getLastD_pos : ∀ (l : List ℝ) (d : ℝ), 0 < d → (∀ p ∈ l, 0 < p) →
    0 < l.getLastD d
  | [], d, hd, _ => by simpa using hd
  | a :: t, d, hd, hp => by
    rw [List.getLastD_cons]
    exact getLastD_pos t a (hp a (by simp)) fun p hq => hp p (List.mem_cons_of_mem _ hq)

/-- The current price (last element) of a non-empty positive series is
positive. -/
theorem currentPrice_pos (prices : List ℝ) (hne : prices ≠ [])
    (hpos : ∀ p ∈ prices, 0 < p) : 0 < prices.getLastD 0 := by
  cases prices with
  | nil => exact absurd rfl hne
  | cons a t =>
    rw [List.getLastD_cons]
    exact getLastD_pos t a (hpos a (by simp)) fun p hq => hpos p (List.mem_cons_of_mem _ hq)

/-- Any nonnegative-priced point of the ARIMA-GARCH loop respects its
multiplicative band. -/
theorem arimaGo_bounds (mean vol : ℝ) (hv : 0 ≤ vol) (horizon : ℕ) (rnd : ℕ → ℝ) :
    ∀ (fuel i : ℕ) (prev : ℝ) (pt : FPoint),
      pt ∈ arimaGo mean vol horizon rnd fuel i prev → 0 ≤ pt.price →
        pt.lowerBound ≤ pt.price ∧ pt.price ≤ pt.upperBound := by
  intro fuel
  induction fuel with
  | zero =>
    intro i prev pt h
    simp [arimaGo] at h
  | succ n ih =>
    intro i prev pt h hp
    simp only [arimaGo] at h
    rcases List.mem_cons.1 h with rfl | h
    · simp only at hp ⊢
      have hg : 0 ≤ vol * (1 + 0.1 * |(rnd i - 0.5) * 2 * vol|) :=
        mul_nonneg hv (by positivity)
      constructor
      · nlinarith [hp, hg]
      · nlinarith [hp, hg]
    · exact ih (i + 1) _ pt h hp

/-- Any nonnegative-priced point of the jump-diffusion loop respects its
multiplicative band (jump intensity nonnegative). -/
theorem jdGo_bounds (mean vol jumpIntensity jumpSize : ℝ) (hv : 0 ≤ vol)
    (hj : 0 ≤ jumpIntensity) (rnd1 rnd2 rnd3 : ℕ → ℝ) :
    ∀ (fuel i : ℕ) (prev : ℝ) (pt : FPoint),
      pt ∈ jdGo mean vol jumpIntensity jumpSize rnd1 rnd2 rnd3 fuel i prev →
        0 ≤ pt.price → pt.lowerBound ≤ pt.price ∧ pt.price ≤ pt.upperBound := by
  intro fuel
  induction fuel with
  | zero =>
    intro i prev pt h
    simp [jdGo] at h
  | succ n ih =>
    intro i prev pt h hp
    simp only [jdGo] at h
    rcases List.mem_cons.1 h with rfl | h
    · simp only at hp ⊢
      have hu : 0 ≤ vol * Real.sqrt ((i : ℝ) + 1) * (1 + jumpIntensity) :=
        mul_nonneg (mul_nonneg hv (Real.sqrt_nonneg _)) (by linarith)
      constructor
      · nlinarith [hp, hu]
      · nlinarith [hp, hu]
    · exact ih (i + 1) _ pt h hp

/-- Every point of the LSTM-style loop respects its additive band when the
current price is nonnegative. -/
theorem lstmGo_bounds (prices : List ℝ) (lookback horizon : ℕ) (c : ℝ)
    (hc : 0 ≤ c) :
    ∀ (fuel i : ℕ) (recent : List ℝ) (pt : FPoint),
      pt ∈ lstmGo prices lookback horizon c fuel i recent →
        pt.lowerBound ≤ pt.price ∧ pt.price ≤ pt.upperBound := by
  intro fuel
  induction fuel with
  | zero =>
    intro i recent pt h
    simp [lstmGo] at h
  | succ n ih =>
    intro i recent pt h
    simp only [lstmGo] at h
    rcases List.mem_cons.1 h with rfl | h
    · simp only
      have hu : 0 ≤ Real.sqrt ((i : ℝ) + 1) * c * 0.02 :=
        mul_nonneg (mul_nonneg (Real.sqrt_nonneg _) hc) (by norm_num)
      constructor
      · linarith
      · linarith
    · exact ih (i + 1) _ pt h

/-- Reading an ascending merge-sort at increasing indices is monotone. -/
theorem sorted_getD_mono (l : List ℝ) (a b : ℕ) (hab : a ≤ b) (hb : b < l.length) :
    (l.mergeSort fun x y => decide (x ≤ y)).getD a 0 ≤
      (l.mergeSort fun x y => decide (x ≤ y)).getD b 0 := by
  have hp := @List.sorted_mergeSort ℝ (fun x y => decide (x ≤ y))
    (fun x y z h1 h2 => by
      simp only [decide_eq_true_eq] at h1 h2 ⊢
      exact le_trans h1 h2)
    (fun x y => by
      simp only [Bool.or_eq_true, decide_eq_true_eq]
      exact le_total x y)
    l
  have hla : a < (l.mergeSort fun x y => decide (x ≤ y)).length := by
    rw [List.length_mergeSort]
    omega
  have hlb : b < (l.mergeSort fun x y => decide (x ≤ y)).length := by
    rw [List.length_mergeSort]
    omega
  rcases eq_or_lt_of_le hab with rfl | hlt
  · exact le_refl _
  · have hrel := List.pairwise_iff_getElem.1 hp a b hla hlb hlt
    simp only [decide_eq_true_eq] at hrel
    rwa [List.getD_eq_getElem?_getD, List.getElem?_eq_getElem hla, Option.getD_some,
      List.getD_eq_getElem?_getD, List.getElem?_eq_getElem hlb, Option.getD_some]

/-- Every regime used by the embedding has a small mean and a small positive
volatility. -/
theorem regimeAt_bounds (n : ℕ) :
    -0.001 ≤ (regimeAt n).mean ∧ (regimeAt n).mean ≤ 0.002 ∧
      0 ≤ (regimeAt n).vol ∧ (regimeAt n).vol ≤ 0.04 := by
  match n with
  | 0 => norm_num [regimeAt]
  | 1 => norm_num [regimeAt]
  | n + 2 =>
    have he : regimeAt (n + 2) = ⟨0.0005, 0.015, 0.3⟩ := rfl
    rw [he]
    norm_num

/-- Every point of the regime-switching loop respects its band from a
nonnegative previous price, for unit-range volatility draws. -/
theorem markovGo_bounds (regimesParam horizon : ℕ) (rnd1 rnd2 rnd3 : ℕ → ℝ)
    (hr3 : ∀ n, 0 ≤ rnd3 n ∧ rnd3 n < 1) :
    ∀ (fuel i regime : ℕ) (prev : ℝ), 0 ≤ prev →
      ∀ pt ∈ markovGo regimesParam horizon rnd1 rnd2 rnd3 fuel i regime prev,
        pt.lowerBound ≤ pt.price ∧ pt.price ≤ pt.upperBound := by
  have hs3 : Real.sqrt 3 < 2 := by
    rw [show (2 : ℝ) = Real.sqrt 4 by
      rw [show (4 : ℝ) = 2 ^ 2 by norm_num, Real.sqrt_sq (by norm_num)]]
    exact Real.sqrt_lt_sqrt (by norm_num) (by norm_num)
  have hs0 : 0 ≤ Real.sqrt 3 := Real.sqrt_nonneg 3
  intro fuel
  induction fuel with
  | zero =>
    intro i regime prev hprev pt h
    simp [markovGo] at h
  | succ n ih =>
    intro i regime prev hprev pt h
    simp only [markovGo] at h
    set regime' := if rnd1 i < 0.05 then ⌊rnd2 i * (regimesParam : ℝ)⌋₊ else regime with hreg
    obtain ⟨hm1, hm2, hv0, hv4⟩ := regimeAt_bounds regime'
    obtain ⟨hu0, hu1⟩ := hr3 i
    have hterm : -((regimeAt regime').vol * Real.sqrt 3) ≤
        (regimeAt regime').vol * (rnd3 i - 0.5) * 2 * Real.sqrt 3 := by
      have hkey : 0 ≤ (regimeAt regime').vol * Real.sqrt 3 * (1 + (rnd3 i - 0.5) * 2) :=
        mul_nonneg (mul_nonneg hv0 hs0) (by linarith)
      nlinarith [hkey]
    have hvs : (regimeAt regime').vol * Real.sqrt 3 ≤ 0.08 := by
      nlinarith [hv0, hv4, hs0, hs3]
    have hstep : 0 ≤ 1 + ((regimeAt regime').mean +
        (regimeAt regime').vol * (rnd3 i - 0.5) * 2 * Real.sqrt 3) := by
      nlinarith [hterm, hvs, hm1]
    have hnew : 0 ≤ prev * (1 + ((regimeAt regime').mean +
        (regimeAt regime').vol * (rnd3 i - 0.5) * 2 * Real.sqrt 3)) :=
      mul_nonneg hprev hstep
    rcases List.mem_cons.1 h with rfl | h
    · simp only
      constructor
      · nlinarith [hnew, hv0]
      · nlinarith [hnew, hv0]
    · exact ih (i + 1) regime' _ hnew pt h

/-- C1 (amended): for the LSTM-style, Monte Carlo (at least one
simulation), Black-Scholes, regime-switching (the dashboard's three
regimes, unit-range draws) and VAR models, every forecast point from a
valid series (non-empty, positive prices) satisfies
`lower_bound ≤ price ≤ upper_bound`; for the ARIMA-GARCH and jump-diffusion
models the invariant holds at every forecast point whose price is
nonnegative — both compound multiplicative steps that can push the price
below zero, where the multiplicative band inverts. -/
theorem C1_theorem :
    (∀ (prices : List ℝ) (horizon : ℕ) (rnd : ℕ → ℝ),
        ∀ pt ∈ generateARIMAGARCH prices horizon rnd, 0 ≤ pt.price →
          pt.lowerBound ≤ pt.price ∧ pt.price ≤ pt.upperBound) ∧
      (∀ (prices : List ℝ) (horizon lookbackParam : ℕ), prices ≠ [] →
        (∀ p ∈ prices, 0 < p) →
        ∀ pt ∈ generateLSTM prices horizon lookbackParam,
          pt.lowerBound ≤ pt.price ∧ pt.price ≤ pt.upperBound) ∧
      (∀ (prices : List ℝ) (horizon sims : ℕ) (vol : ℝ) (rnd : ℕ → ℕ → ℕ → ℝ),
        1 ≤ sims →
        ∀ pt ∈ generateMonteCarlo prices horizon sims vol rnd,
          pt.lowerBound ≤ pt.price ∧ pt.price ≤ pt.upperBound) ∧
      (∀ (prices : List ℝ) (horizon : ℕ) (r vol : ℝ) (rnd : ℕ → ℝ),
        prices ≠ [] → (∀ p ∈ prices, 0 < p) →
        ∀ pt ∈ generateBlackScholes prices horizon r vol rnd,
          pt.lowerBound ≤ pt.price ∧ pt.price ≤ pt.upperBound) ∧
      (∀ (prices : List ℝ) (horizon : ℕ) (jumpIntensity jumpSize : ℝ)
          (rnd1 rnd2 rnd3 : ℕ → ℝ), 0 ≤ jumpIntensity →
        ∀ pt ∈ generateJumpDiffusion prices horizon jumpIntensity jumpSize
            rnd1 rnd2 rnd3, 0 ≤ pt.price →
          pt.lowerBound ≤ pt.price ∧ pt.price ≤ pt.upperBound) ∧
      (∀ (prices : List ℝ) (horizon regimesParam : ℕ) (rnd1 rnd2 rnd3 : ℕ → ℝ),
        prices ≠ [] → (∀ p ∈ prices, 0 < p) → regimesParam = 3 →
        (∀ n, 0 ≤ rnd2 n ∧ rnd2 n < 1) → (∀ n, 0 ≤ rnd3 n ∧ rnd3 n < 1) →
        ∀ pt ∈ generateMarkov prices horizon regimesParam rnd1 rnd2 rnd3,
          pt.lowerBound ≤ pt.price ∧ pt.price ≤ pt.upperBound) ∧
      (∀ (prices : List ℝ) (horizon lags : ℕ) (ev : List ExogVar)
          (rndS rndG rndV : ℕ → ℝ), prices ≠ [] → (∀ p ∈ prices, 0 < p) →
        ∀ pt ∈ generateVAR prices horizon lags ev rndS rndG rndV,
          pt.lowerBound ≤ pt.price ∧ pt.price ≤ pt.upperBound) := by
  refine ⟨?_, ?_, ?_, ?_, ?_, ?_, ?_⟩
  · intro prices horizon rnd pt hpt hp
    simp only [generateARIMAGARCH] at hpt
    exact arimaGo_bounds _ _ (Real.sqrt_nonneg _) horizon rnd horizon 0 _ pt hpt hp
  · intro prices horizon lookbackParam hne hpos pt hpt
    simp only [generateLSTM] at hpt
    exact lstmGo_bounds _ _ _ _ (le_of_lt (currentPrice_pos prices hne hpos))
      horizon 0 _ pt hpt
  · intro prices horizon sims vol rnd hs pt hpt
    simp only [generateMonteCarlo] at hpt
    obtain ⟨i, hi, rfl⟩ := List.mem_map.1 hpt
    simp only
    have hn : ((List.range (min 100 sims)).map fun s =>
        mcDayPrice (prices.getLastD 0) (fMean (fReturns prices)) vol (rnd i s) (i + 1)).length =
        min 100 sims := by
      rw [List.length_map, List.length_range]
    rw [hn]
    have h1 : 1 ≤ min 100 sims := by omega
    constructor
    · exact sorted_getD_mono _ _ _ (by omega) (by rw [hn]; omega)
    · exact sorted_getD_mono _ _ _ (by omega) (by rw [hn]; omega)
  · intro prices horizon r vol rnd hne hpos pt hpt
    simp only [generateBlackScholes] at hpt
    obtain ⟨i, hi, rfl⟩ := List.mem_map.1 hpt
    simp only
    have hc := currentPrice_pos prices hne hpos
    have hpp : 0 < prices.getLastD 0 * Real.exp (r * (((i : ℝ) + 1) / 365) +
        vol * Real.sqrt (((i : ℝ) + 1) / 365) * (rnd i - 0.5) * 2) :=
      mul_pos hc (Real.exp_pos _)
    constructor
    · nlinarith [hpp]
    · nlinarith [hpp]
  · intro prices horizon jumpIntensity jumpSize rnd1 rnd2 rnd3 hj pt hpt hp
    simp only [generateJumpDiffusion] at hpt
    exact jdGo_bounds _ _ _ _ (Real.sqrt_nonneg _) hj rnd1 rnd2 rnd3
      horizon 0 _ pt hpt hp
  · intro prices horizon regimesParam rnd1 rnd2 rnd3 hne hpos _ _ hr3 pt hpt
    simp only [generateMarkov] at hpt
    exact markovGo_bounds regimesParam horizon rnd1 rnd2 rnd3 hr3 horizon 0
      (markovInitRegime prices) _ (le_of_lt (currentPrice_pos prices hne hpos)) pt hpt
  · intro prices horizon lags ev rndS rndG rndV hne hpos pt hpt
    simp only [generateVAR] at hpt
    obtain ⟨i, hi, rfl⟩ := List.mem_map.1 hpt
    simp only
    have hc := currentPrice_pos prices hne hpos
    have hu : 0 ≤ prices.getLastD 0 * 0.03 * Real.sqrt ((i : ℝ) + 1) :=
      mul_nonneg (mul_nonneg (le_of_lt hc) (by norm_num)) (Real.sqrt_nonneg _)
    constructor
    · linarith
    · linarith

/-- C1 counterexample: on valid (positive) price series, both the
ARIMA-GARCH and the jump-diffusion model can produce a forecast point whose
projected price is negative, and the multiplicative confidence band then
inverts: the point violates `lower_bound ≤ price ≤ upper_bound`.  The
ARIMA-GARCH series has mean daily return `1/5` and volatility `7/5`, so the
lowest admissible shock drives the one-step return below `-1`; the
jump-diffusion series has mean `1/4` and volatility `3/4`, and the `√3`
scaling of its uniform shock does the same. -/
theorem C1_counterexample :
    ((∀ p ∈ ([64, 32, 16, 8, 4, 16] : List ℝ), 0 < p) ∧
      (generateARIMAGARCH [64, 32, 16, 8, 4, 16] 1 fun _ => 0).length = 1 ∧
      ¬(((generateARIMAGARCH [64, 32, 16, 8, 4, 16] 1 fun _ => 0).getD 0
            ⟨0, 0, 0, 0⟩).lowerBound ≤
          ((generateARIMAGARCH [64, 32, 16, 8, 4, 16] 1 fun _ => 0).getD 0
            ⟨0, 0, 0, 0⟩).price ∧
        ((generateARIMAGARCH [64, 32, 16, 8, 4, 16] 1 fun _ => 0).getD 0
            ⟨0, 0, 0, 0⟩).price ≤
          ((generateARIMAGARCH [64, 32, 16, 8, 4, 16] 1 fun _ => 0).getD 0
            ⟨0, 0, 0, 0⟩).upperBound)) ∧
      ((∀ p ∈ ([100, 200, 100] : List ℝ), 0 < p) ∧
        (generateJumpDiffusion [100, 200, 100] 1 0.1 0.1 (fun _ => 0)
          (fun _ => 1/2) fun _ => 0).length = 1 ∧
        ¬(((generateJumpDiffusion [100, 200, 100] 1 0.1 0.1 (fun _ => 0)
              (fun _ => 1/2) fun _ => 0).getD 0 ⟨0, 0, 0, 0⟩).lowerBound ≤
            ((generateJumpDiffusion [100, 200, 100] 1 0.1 0.1 (fun _ => 0)
              (fun _ => 1/2) fun _ => 0).getD 0 ⟨0, 0, 0, 0⟩).price ∧
          ((generateJumpDiffusion [100, 200, 100] 1 0.1 0.1 (fun _ => 0)
              (fun _ => 1/2) fun _ => 0).getD 0 ⟨0, 0, 0, 0⟩).price ≤
            ((generateJumpDiffusion [100, 200, 100] 1 0.1 0.1 (fun _ => 0)
              (fun _ => 1/2) fun _ => 0).getD 0 ⟨0, 0, 0, 0⟩).upperBound)) := by
  have hr6 : fReturns [64, 32, 16, 8, 4, 16] = [-(1/2), -(1/2), -(1/2), -(1/2), 3] := by
    have h5 : List.range 5 = [0, 1, 2, 3, 4] := rfl
    simp only [fReturns, List.length_cons, List.length_nil]
    norm_num [h5, List.getD]
  have hm6 : fMean [-(1/2), -(1/2), -(1/2), -(1/2), (3 : ℝ)] = 1/5 := by
    simp only [fMean, List.foldl_cons, List.foldl_nil, List.length_cons, List.length_nil]
    norm_num
  have hv6 : fVariance [-(1/2), -(1/2), -(1/2), -(1/2), (3 : ℝ)] = 49/25 := by
    simp only [fVariance, hm6, List.map_cons, List.map_nil, List.foldl_cons,
      List.foldl_nil, List.length_cons, List.length_nil]
    norm_num
  have hs6 : Real.sqrt (49/25) = 7/5 := by
    rw [show (49/25 : ℝ) = (7/5) ^ 2 by norm_num, Real.sqrt_sq (by norm_num)]
  have habs6 : |((0 : ℝ) - 0.5) * 2 * (7/5)| = 7/5 := by
    rw [abs_of_nonpos (by norm_num)]
    norm_num
  have hlast6 : ([64, 32, 16, 8, 4, 16] : List ℝ).getLastD 0 = 16 := by
    simp [List.getLastD]
  have hr3 : fReturns [100, 200, 100] = [1, -(1/2)] := by
    have h2 : List.range 2 = [0, 1] := rfl
    simp only [fReturns, List.length_cons, List.length_nil]
    norm_num [h2, List.getD]
  have hm3 : fMean [1, -(1/2 : ℝ)] = 1/4 := by
    simp only [fMean, List.foldl_cons, List.foldl_nil, List.length_cons, List.length_nil]
    norm_num
  have hv3 : fVariance [1, -(1/2 : ℝ)] = 9/16 := by
    simp only [fVariance, hm3, List.map_cons, List.map_nil, List.foldl_cons,
      List.foldl_nil, List.length_cons, List.length_nil]
    norm_num
  have hs3 : Real.sqrt (9/16) = 3/4 := by
    rw [show (9/16 : ℝ) = (3/4) ^ 2 by norm_num, Real.sqrt_sq (by norm_num)]
  have hlast3 : ([100, 200, 100] : List ℝ).getLastD 0 = 100 := by
    simp [List.getLastD]
  have hsq1 : Real.sqrt (((0 : ℕ) : ℝ) + 1) = 1 := by
    rw [show (((0 : ℕ) : ℝ) + 1) = 1 by norm_num, Real.sqrt_one]
  have hlt3 : (5/3 : ℝ) < Real.sqrt 3 := by
    exact Real.lt_sqrt_of_sq_lt (by norm_num)
  refine ⟨⟨?_, ?_, ?_⟩, ?_, ?_, ?_⟩
  · intro p hp
    simp only [List.mem_cons, List.not_mem_nil, or_false] at hp
    rcases hp with rfl | rfl | rfl | rfl | rfl | rfl <;> norm_num
  · simp only [generateARIMAGARCH, hr6, hm6, hv6, hs6, hlast6, arimaGo]
    rfl
  · simp only [generateARIMAGARCH, hr6, hm6, hv6, hs6, hlast6, arimaGo, habs6,
      List.getD_cons_zero]
    rintro ⟨-, h2⟩
    norm_num at h2
  · intro p hp
    simp only [List.mem_cons, List.not_mem_nil, or_false] at hp
    rcases hp with rfl | rfl | rfl <;> norm_num
  · simp only [generateJumpDiffusion, hr3, hm3, hv3, hs3, hlast3, jdGo]
    rfl
  · simp only [generateJumpDiffusion, hr3, hm3, hv3, hs3, hlast3, jdGo, hsq1,
      if_neg (by norm_num : ¬((1 : ℝ)/2 < 0.1)), List.getD_cons_zero]
    rintro ⟨-, h2⟩
    nlinarith [hlt3, h2]

/-- C1 witness: concrete instantiations for all seven models — the
single-point ARIMA-GARCH and jump-diffusion forecasts of the constant
series `[1, 1]` (price 1, nonnegative), and the series-level hypotheses for
the other five models on the series `[1, 2]`. -/
theorem C1_witness :
    ((⟨1, 1, 1, 0.95⟩ : FPoint) ∈ generateARIMAGARCH [1, 1] 1 (fun _ => 1/2) ∧
        (0 : ℝ) ≤ (⟨1, 1, 1, 0.95⟩ : FPoint).price ∧
        ((⟨1, 1, 1, 0.95⟩ : FPoint).lowerBound ≤ (⟨1, 1, 1, 0.95⟩ : FPoint).price ∧
          (⟨1, 1, 1, 0.95⟩ : FPoint).price ≤ (⟨1, 1, 1, 0.95⟩ : FPoint).upperBound)) ∧
      (([1, 2] : List ℝ) ≠ [] ∧ (∀ p ∈ ([1, 2] : List ℝ), 0 < p) ∧
        ∀ pt ∈ generateLSTM [1, 2] 3 60,
          pt.lowerBound ≤ pt.price ∧ pt.price ≤ pt.upperBound) ∧
      ((1 : ℕ) ≤ 1 ∧
        ∀ pt ∈ generateMonteCarlo [1, 2] 2 1 0.04 (fun _ _ _ => 1/2),
          pt.lowerBound ≤ pt.price ∧ pt.price ≤ pt.upperBound) ∧
      (([1, 2] : List ℝ) ≠ [] ∧ (∀ p ∈ ([1, 2] : List ℝ), 0 < p) ∧
        ∀ pt ∈ generateBlackScholes [1, 2] 2 0.05 0.6 (fun _ => 1/2),
          pt.lowerBound ≤ pt.price ∧ pt.price ≤ pt.upperBound) ∧
      ((0 : ℝ) ≤ 0.1 ∧
        (⟨1, 1, 1, 0.85⟩ : FPoint) ∈ generateJumpDiffusion [1, 1] 1 0.1 0.1
          (fun _ => 1/2) (fun _ => 1/2) (fun _ => 1/2) ∧
        (0 : ℝ) ≤ (⟨1, 1, 1, 0.85⟩ : FPoint).price ∧
        ((⟨1, 1, 1, 0.85⟩ : FPoint).lowerBound ≤ (⟨1, 1, 1, 0.85⟩ : FPoint).price ∧
          (⟨1, 1, 1, 0.85⟩ : FPoint).price ≤ (⟨1, 1, 1, 0.85⟩ : FPoint).upperBound)) ∧
      (([1, 2] : List ℝ) ≠ [] ∧ (∀ p ∈ ([1, 2] : List ℝ), 0 < p) ∧ (3 : ℕ) = 3 ∧
        (∀ n : ℕ, 0 ≤ (fun _ : ℕ => (1/2 : ℝ)) n ∧ (fun _ : ℕ => (1/2 : ℝ)) n < 1) ∧
        (∀ n : ℕ, 0 ≤ (fun _ : ℕ => (1/2 : ℝ)) n ∧ (fun _ : ℕ => (1/2 : ℝ)) n < 1) ∧
        ∀ pt ∈ generateMarkov [1, 2] 2 3 (fun _ => 1/2) (fun _ => 1/2) (fun _ => 1/2),
          pt.lowerBound ≤ pt.price ∧ pt.price ≤ pt.upperBound) ∧
      (([1, 2] : List ℝ) ≠ [] ∧ (∀ p ∈ ([1, 2] : List ℝ), 0 < p) ∧
        ∀ pt ∈ generateVAR [1, 2] 2 5 [.sp500, .gold, .vix] (fun _ => 1/2)
            (fun _ => 1/2) (fun _ => 1/2),
          pt.lowerBound ≤ pt.price ∧ pt.price ≤ pt.upperBound) := by
  have hpos12 : ∀ p ∈ ([1, 2] : List ℝ), 0 < p := by
    intro p hp
    simp only [List.mem_cons, List.not_mem_nil, or_false] at hp
    rcases hp with rfl | rfl <;> norm_num
  have hne12 : ([1, 2] : List ℝ) ≠ [] := by simp
  have hhalf : ∀ n : ℕ, 0 ≤ (fun _ : ℕ => (1/2 : ℝ)) n ∧ (fun _ : ℕ => (1/2 : ℝ)) n < 1 := by
    intro n
    constructor <;> norm_num
  have hr11 : fReturns [1, 1] = [0] := by
    have h1 : List.range 1 = [0] := rfl
    simp only [fReturns, List.length_cons, List.length_nil]
    norm_num [h1, List.getD]
  have hm11 : fMean [(0 : ℝ)] = 0 := by
    simp only [fMean, List.foldl_cons, List.foldl_nil, List.length_cons, List.length_nil]
    norm_num
  have hv11 : fVariance [(0 : ℝ)] = 0 := by
    simp only [fVariance, hm11, List.map_cons, List.map_nil, List.foldl_cons,
      List.foldl_nil, List.length_cons, List.length_nil]
    norm_num
  have hlast11 : ([1, 1] : List ℝ).getLastD 0 = 1 := by
    simp [List.getLastD]
  have harima : generateARIMAGARCH [1, 1] 1 (fun _ => 1/2) = [⟨1, 1, 1, 0.95⟩] := by
    simp only [generateARIMAGARCH, hr11, hm11, hv11, Real.sqrt_zero, hlast11, arimaGo]
    norm_num
  have hjd : generateJumpDiffusion [1, 1] 1 0.1 0.1 (fun _ => 1/2) (fun _ => 1/2)
      (fun _ => 1/2) = [⟨1, 1, 1, 0.85⟩] := by
    simp only [generateJumpDiffusion, hr11, hm11, hv11, Real.sqrt_zero, hlast11, jdGo,
      if_neg (by norm_num : ¬((1 : ℝ)/2 < 0.1))]
    norm_num
  refine ⟨⟨?_, by norm_num, ?_⟩, ⟨hne12, hpos12, ?_⟩, ⟨le_refl 1, ?_⟩,
    ⟨hne12, hpos12, ?_⟩, ⟨by norm_num, ?_, by norm_num, ?_⟩,
    ⟨hne12, hpos12, rfl, hhalf, hhalf, ?_⟩, ⟨hne12, hpos12, ?_⟩⟩
  · rw [harima]
    exact List.mem_cons_self _ _
  · exact C1_theorem.1 [1, 1] 1 (fun _ => 1/2) ⟨1, 1, 1, 0.95⟩
      (by rw [harima]; exact List.mem_cons_self _ _) (by norm_num)
  · exact C1_theorem.2.1 [1, 2] 3 60 hne12 hpos12
  · exact C1_theorem.2.2.1 [1, 2] 2 1 0.04 (fun _ _ _ => 1/2) (le_refl 1)
  · exact C1_theorem.2.2.2.1 [1, 2] 2 0.05 0.6 (fun _ => 1/2) hne12 hpos12
  · rw [hjd]
    exact List.mem_cons_self _ _
  · exact C1_theorem.2.2.2.2.1 [1, 1] 1 0.1 0.1 (fun _ => 1/2) (fun _ => 1/2)
      (fun _ => 1/2) (by norm_num) ⟨1, 1, 1, 0.85⟩
      (by rw [hjd]; exact List.mem_cons_self _ _) (by norm_num)
  · exact C1_theorem.2.2.2.2.2.1 [1, 2] 2 3 (fun _ => 1/2) (fun _ => 1/2)
      (fun _ => 1/2) hne12 hpos12 rfl hhalf hhalf
  · exact C1_theorem.2.2.2.2.2.2 [1, 2] 2 5 [.sp500, .gold, .vix] (fun _ => 1/2)
      (fun _ => 1/2) (fun _ => 1/2) hne12 hpos12

end Btc

